import Mathlib

/-!
Verification of the TickTick-to-OmniFocus converter (`src/index.js`).

The development is a shallow embedding of the script's pure core.  Rows come
out of csvtojson (invoked with `noheader: true` and a fixed 21-name header
list and with the default `checkType: false`) as objects whose own
properties are all strings, so a row is modelled as an association list of
string key/value pairs; reading an absent key yields `undefined`, modelled
by a dedicated JavaScript-value type.  String operations (`trim`, `split`,
`join`, `<`, template-literal coercion, `ToNumber`) are modelled on the
underlying character lists with JavaScript semantics.  The luxon library and
the host platform enter through an abstract environment recording which
strings are valid ISO instants, which zone names the IANA database knows,
the system zone, and the rendering of an instant in a zone under the fixed
format string.  `Array.prototype.sort` is stable, so it is modelled by
`List.mergeSort` on the comparator's non-positive relation.
-/

namespace TickTickToOmniFocus

/-- A JavaScript value as it can reach the helpers of `src/index.js`:
a string (csvtojson delivers every cell as a string), `undefined` (an absent
row key), or `null` (used by the source only as the explicit fallback
argument in `tpRepeat`). -/
inductive JSVal where
  | undef
  | null
  | str (s : String)
deriving DecidableEq, Repr

/-- JavaScript `String(v)`, as also performed by template literals. -/
def jsToString : JSVal → String
  | .undef => "undefined"
  | .null => "null"
  | .str s => s

/-- JavaScript truthiness of the values above: `undefined` and `null` are
falsy, a string is truthy iff it is non-empty. -/
def jsTruthy : JSVal → Bool
  | .undef => false
  | .null => false
  | .str s => s != ""

/-- Whether a value is a string. -/
def isStrVal : JSVal → Bool
  | .str _ => true
  | _ => false

/-- The JavaScript whitespace class (as used by `String.prototype.trim` and
`\s`): space, tab, LF, VT, FF, CR, NBSP, Ogham space mark, the
U+2000..U+200A spaces, LS, PS, NNBSP, MMSP, ideographic space, BOM. -/
def isJsWs (c : Char) : Bool :=
  c == ' ' || c == '\t' || c == '\n' || c == '\r' ||
  c.toNat == 11 || c.toNat == 12 || c.toNat == 160 || c.toNat == 5760 ||
  (8192 ≤ c.toNat && c.toNat ≤ 8202) || c.toNat == 8232 || c.toNat == 8233 ||
  c.toNat == 8239 || c.toNat == 8287 || c.toNat == 12288 || c.toNat == 65279

/-- `String.prototype.trim` on the character list. -/
def trimL (l : List Char) : List Char :=
  ((l.dropWhile isJsWs).reverse.dropWhile isJsWs).reverse

/-- JavaScript `String.prototype.trim`. -/
def jsTrim (s : String) : String := ⟨trimL s.data⟩

/-- `String.prototype.split` with a one-character separator, on the
underlying character list, with JavaScript semantics: splitting the empty
string yields one empty piece, a separator at the end yields a trailing
empty piece. -/
def splitSepL (sep : Char) : List Char → List (List Char)
  | [] => [[]]
  | c :: cs =>
    let r := splitSepL sep cs
    if c = sep then [] :: r else (c :: r.headD []) :: r.tail

/-- `split("\n")` on strings. -/
def splitNl (s : String) : List String := (splitSepL '\n' s.data).map String.mk

/-- `Array.prototype.join` with the given separator, on character lists. -/
def joinSepL (sep : List Char) : List (List Char) → List Char
  | [] => []
  | [l] => l
  | l :: l' :: ls => l ++ sep ++ joinSepL sep (l' :: ls)

/-- `join("\n")` on strings. -/
def joinNl (ls : List String) : String := ⟨joinSepL ['\n'] (ls.map String.data)⟩

/-- `join("\n\n")` on strings. -/
def joinNN (ls : List String) : String := ⟨joinSepL ['\n', '\n'] (ls.map String.data)⟩

/-- JavaScript `toLowerCase`, restricted to the ASCII alphabet that the
header labels and the zone keywords use. -/
def lowerStr (s : String) : String := ⟨s.data.map Char.toLower⟩

/-- `w.charAt(0).toUpperCase() + w.slice(1)` (the empty word is unchanged,
as in JavaScript, where `"".charAt(0)` is the empty string). -/
def capitalizeWord (w : List Char) : List Char :=
  match w with
  | [] => []
  | c :: cs => Char.toUpper c :: cs

/-- The indexed map of `keyToCamelCase`: the word at index 0 is kept, every
later word is capitalized. -/
def camelWords : Nat → List (List Char) → List (List Char)
  | _, [] => []
  | i, w :: ws => (if i = 0 then w else capitalizeWord w) :: camelWords (i + 1) ws

/-- `src/index.js` lines 27-33 (`keyToCamelCase`):
`key.toLowerCase().split(" ").map((w, i) => (!!i ? w.charAt(0).toUpperCase() + w.slice(1) : w)).join("")`. -/
def keyToCamelCase (key : String) : String :=
  ⟨(camelWords 0 (splitSepL ' ' (lowerStr key).data)).flatten⟩

/-- The UTF-16 code units of a string.  JavaScript's `<` and `>` compare
strings lexicographically on these units. -/
def utf16Units (s : String) : List Nat :=
  s.data.flatMap fun c =>
    if c.toNat < 65536 then [c.toNat]
    else [55296 + (c.toNat - 65536) / 1024, 56320 + (c.toNat - 65536) % 1024]

/-- Lexicographic strict order on lists of naturals. -/
def lexLt : List Nat → List Nat → Bool
  | [], [] => false
  | [], _ :: _ => true
  | _ :: _, [] => false
  | a :: as, b :: bs => if a < b then true else if b < a then false else lexLt as bs

/-- JavaScript `a < b` on two strings (code-unit lexicographic). -/
def jsLtStr (a b : String) : Bool := lexLt (utf16Units a) (utf16Units b)

/-- Partial model of JavaScript `ToNumber` on strings, exact on the empty
and whitespace-only strings (which convert to 0) and on optionally signed
decimal integer literals surrounded by whitespace; every other string maps
to `none`, standing for NaN.  (Real `ToNumber` also accepts fractional,
exponent, hex, octal, binary and Infinity forms; the status and priority
columns this model is applied to only ever hold integer literals.) -/
def jsToNumber (s : String) : Option Int :=
  let t := trimL s.data
  if t.isEmpty then some 0
  else
    let signDigits : Int × List Char :=
      match t with
      | '-' :: rest => (-1, rest)
      | '+' :: rest => (1, rest)
      | l => (1, l)
    if !signDigits.2.isEmpty && signDigits.2.all (fun c => c.isDigit) then
      some (signDigits.1 * (signDigits.2.foldl (fun n c => 10 * n + (c.toNat - 48)) 0 : Nat))
    else none

/-- JavaScript loose inequality `v != 0` for the values that reach
`tpDone`'s status test: `undefined != 0` and `null != 0` are both true; a
string is converted by `ToNumber` and NaN compares unequal. -/
def jsLooseNeqZero : JSVal → Bool
  | .undef => true
  | .null => true
  | .str s => jsToNumber s != some 0

/-- JavaScript `v > 0` as used by `tpFlagged`: NaN and `undefined` compare
false, `null` converts to 0, a string is converted by `ToNumber`. -/
def jsGtZero : JSVal → Bool
  | .undef => false
  | .null => false
  | .str s =>
    match jsToNumber s with
    | some n => 0 < n
    | none => false

/-- JavaScript `a < b` as the sort comparator applies it to `createdTime`
values: exact when both operands are strings (code-unit lexicographic
comparison) and when either operand is `undefined` (NaN comparisons are
false); the remaining mixed cases involving `null`, which cannot occur in a
parsed row, are modelled as false. -/
def jsLtVal : JSVal → JSVal → Bool
  | .str a, .str b => jsLtStr a b
  | _, _ => false

/-- `src/index.js` lines 12-14 (`cleanupStrings`):
`String(value).trim() || fallback`. -/
def cleanupStrings (value : JSVal) (fallback : JSVal := JSVal.str "") : JSVal :=
  if jsTrim (jsToString value) = "" then fallback
  else JSVal.str (jsTrim (jsToString value))

/-- A parsed row: the ordered own properties of the object csvtojson
produces, every value a string. -/
abbrev Row := List (String × String)

/-- The JavaScript property read `row.key` for the fixed field names the
encoders use (none of those names collides with an `Object.prototype`
member, so an absent key reads as `undefined`). -/
def rowGet (row : Row) (key : String) : JSVal :=
  match row.lookup key with
  | some v => JSVal.str v
  | none => JSVal.undef

/-- The pieces of the environment that the luxon library and the host
platform supply: which strings parse as valid ISO-8601 instants, which zone
names the IANA database recognises, the name of the system's local zone,
and the rendering `fmt instant zone` of a valid instant in a recognised
zone under the fixed format string `"MM/dd/yyyy h:mm:ss a"`. -/
structure DateEnv where
  validISO : String → Bool
  validZone : String → Bool
  localZone : String
  fmt : String → String → String

/-- luxon `FixedOffsetZone.parseSpecifier` applied to an already lowercased
string: `utc±h`, `utc±hh`, `utc±h:mm`, `utc±hh:mm`.  (The bare `utc`/`gmt`
keywords are recognised before this test in `setZoneFormat`.) -/
def isUtcOffsetSpec (s : String) : Bool :=
  match s.data with
  | 'u' :: 't' :: 'c' :: c :: rest =>
    (c == '+' || c == '-') &&
      (match rest with
       | [d] => d.isDigit
       | [d, e] => d.isDigit && e.isDigit
       | [d, ':', e, f] => d.isDigit && e.isDigit && f.isDigit
       | [d, e, ':', f, g] => d.isDigit && e.isDigit && f.isDigit && g.isDigit
       | _ => false)
  | _ => false

/-- luxon `DateTime.setZone` followed by `toFormat`: `normalizeZone` sends
`undefined` and `null` to the default (system) zone, the lowercased
keywords `default`/`local`/`system` to the system zone, `utc`/`gmt` and the
UTC-offset specifiers to fixed-offset zones, and any other string to
`IANAZone.create`; `setZone` with a zone the IANA database does not
recognise returns an invalid `DateTime`, and `toFormat` on an invalid
`DateTime` is the literal string `"Invalid DateTime"`. -/
def setZoneFormat (env : DateEnv) (instant : String) (zone : JSVal) : String :=
  match zone with
  | .undef => env.fmt instant env.localZone
  | .null => env.fmt instant env.localZone
  | .str z =>
    let lowered := lowerStr z
    if lowered == "default" || lowered == "local" || lowered == "system" then
      env.fmt instant env.localZone
    else if lowered == "utc" || lowered == "gmt" then env.fmt instant "UTC"
    else if isUtcOffsetSpec lowered then env.fmt instant lowered
    else if env.validZone z then env.fmt instant z
    else "Invalid DateTime"

/-- `src/index.js` lines 16-25 (`reformatDates`): null when the timestamp is
falsy or does not parse as an ISO instant; otherwise parse it, convert to
UTC (which changes only the intermediate zone, never the instant), set the
TickTick zone and format. -/
def reformatDates (env : DateEnv) (ttDateTime ttTimezone : JSVal) : Option String :=
  match ttDateTime with
  | .undef => none
  | .null => none
  | .str d =>
    if d == "" || !env.validISO d then none
    else some (setZoneFormat env d ttTimezone)

/-- Truthiness of a `reformatDates` result (`!!date`): null and the empty
string are falsy, any other string is truthy. -/
def optTruthy : Option String → Bool
  | none => false
  | some s => s != ""

/-- `src/index.js` lines 42-46 (`tpDone`). -/
def tpDone (env : DateEnv) (item : Row) : String :=
  let completed := jsLooseNeqZero (rowGet item "status")
  let completionDate := reformatDates env (rowGet item "completedTime") (rowGet item "timezone")
  if completed && optTruthy completionDate then " @done(" ++ completionDate.getD "" ++ ")"
  else ""

/-- `src/index.js` lines 48-51 (`tpDefer`). -/
def tpDefer (env : DateEnv) (item : Row) : String :=
  let deferDate := reformatDates env (rowGet item "createdTime") (rowGet item "timezone")
  if optTruthy deferDate then " @defer(" ++ deferDate.getD "" ++ ")" else ""

/-- `src/index.js` lines 53-56 (`tpDue`). -/
def tpDue (env : DateEnv) (item : Row) : String :=
  let dueDate := reformatDates env (rowGet item "dueDate") (rowGet item "timezone")
  if optTruthy dueDate then " @due(" ++ dueDate.getD "" ++ ")" else ""

/-- `src/index.js` lines 58-60 (`tpFlagged`). -/
def tpFlagged (item : Row) : String :=
  if jsGtZero (rowGet item "priority") then " @flagged" else ""

/-- The `replace` of one leading dash (regex anchor plus dash) on a line's
characters. -/
def stripDash (l : List Char) : List Char :=
  match l with
  | [] => []
  | c :: cs => if c = '-' then cs else c :: cs

/-- The `replace` of one leading black small square (regex anchor plus the
character U+25AA) on a line's characters. -/
def stripSquare (l : List Char) : List Char :=
  match l with
  | [] => []
  | c :: cs => if c = '▪' then cs else c :: cs

/-- One line of the note as `tpNote` rewrites it: first the dash
replacement, then the bullet replacement (so a line that starts with the
two characters `-▪` loses both). -/
def cleanNoteLine (s : String) : String := ⟨stripSquare (stripDash s.data)⟩

/-- `src/index.js` lines 62-69 (`tpNote`). -/
def tpNote (item : Row) : String :=
  if jsTruthy (rowGet item "content") then
    joinNl ((splitNl (jsToString (cleanupStrings (rowGet item "content")))).map cleanNoteLine)
  else ""

/-- `src/index.js` lines 71-75 (`tpProject`): each part is trimmed on its
own before the parts are joined with one space and trimmed again. -/
def tpProject (item : Row) : String :=
  let folder :=
    if jsTruthy (rowGet item "folderName") then jsToString (cleanupStrings (rowGet item "folderName"))
    else ""
  let list :=
    if jsTruthy (rowGet item "listName") then jsToString (cleanupStrings (rowGet item "listName"))
    else ""
  if folder != "" || list != "" then jsToString (cleanupStrings (JSVal.str (folder ++ " " ++ list)))
  else ""

/-- `src/index.js` lines 77-80 (`tpRepeat`); the fallback passed to
`cleanupStrings` is `null`. -/
def tpRepeat (item : Row) : String :=
  let repeatRule := cleanupStrings (rowGet item "repeat") JSVal.null
  if jsTruthy repeatRule then
    " @repeat-method(fixed) @repeat-rule(" ++ jsToString repeatRule ++ ")"
  else ""

/-- `src/index.js` lines 82-89 (`tpTags`): note that the priority text is
guarded by the truthiness of the raw `priority` string, not by a numeric
comparison. -/
def tpTags (item : Row) : String :=
  let tags := jsToString (cleanupStrings (rowGet item "tags"))
  let priority :=
    if jsTruthy (rowGet item "priority") then "priority-" ++ jsToString (rowGet item "priority")
    else ""
  if tags != "" || priority != "" then
    " @tags(" ++ tags ++ (if tags != "" && priority != "" then ", " else "") ++ priority ++ ")"
  else ""

/-- `src/index.js` line 91 (`tpTitle`). -/
def tpTitle (item : Row) : String := jsToString (cleanupStrings (rowGet item "title"))

/-- The project key the sort comparator builds (lines 98-99): the raw field
values are interpolated first and the whole concatenation is trimmed, so
interior whitespace survives — unlike `tpProject`, which trims each part
before joining. -/
def comparatorKey (a : Row) : String :=
  jsToString (cleanupStrings (JSVal.str
    (jsToString (rowGet a "folderName") ++ " " ++ jsToString (rowGet a "listName"))))

/-- `src/index.js` lines 97-106 (`sortByProjectAndCreation`). -/
def sortByProjectAndCreation (a b : Row) : Int :=
  if jsLtStr (comparatorKey a) (comparatorKey b) then -1
  else if jsLtStr (comparatorKey b) (comparatorKey a) then 1
  else if jsLtVal (rowGet a "createdTime") (rowGet b "createdTime") then -1
  else if jsLtVal (rowGet b "createdTime") (rowGet a "createdTime") then 1
  else 0

/-- The non-positive relation of the comparator. -/
def sortLe (a b : Row) : Bool := decide (sortByProjectAndCreation a b ≤ 0)

/-- `json.sort(sortByProjectAndCreation)`: `Array.prototype.sort` is a
stable sort, and every stable sort computes the same list when the
comparator is consistent, so the call is modelled by `List.mergeSort` on
the comparator's non-positive relation. -/
def jsSortRows (rows : List Row) : List Row := rows.mergeSort sortLe

/-- The indent-string npm package with its default options:
`str.replace(/^(?!\s*$)/gm, indent.repeat(count))`, i.e. prepend the
repeated indent to every line that is not whitespace-only. -/
def indentString (s : String) (count : Nat) (indent : String) : String :=
  let ind : String := ⟨(List.replicate count indent.data).flatten⟩
  joinNl ((splitNl s).map fun l => if l.data.all isJsWs then l else ind ++ l)

/-- `src/index.js` lines 112-116: the rendered block for one task (the
dash-prefixed entry line, then the note indented one tab; the whole entry
is trimmed and then indented one tab). -/
def taskOutput (env : DateEnv) (task : Row) : String :=
  let dates := " " ++ tpDefer env task ++ tpDue env task ++ tpDone env task
  let meta := " " ++ tpFlagged task ++ tpRepeat task ++ tpTags task
  let note := indentString (tpNote task) 1 "\t"
  let each := jsTrim ("\n- " ++ tpTitle task ++ dates ++ meta ++ "\n" ++ note)
  indentString each 1 "\t"

/-- Property names a plain object literal inherits from `Object.prototype`.
For these keys `!acc[key]` is false even though the key was never assigned,
so the init is skipped and the following `.push` call on a non-array
throws a TypeError. -/
def objectProtoKeys : List String :=
  ["__proto__", "constructor", "hasOwnProperty", "isPrototypeOf",
   "propertyIsEnumerable", "toLocaleString", "toString", "valueOf",
   "__defineGetter__", "__defineSetter__", "__lookupGetter__", "__lookupSetter__"]

/-- Append one rendered block to the bucket stored under `key` (the key is
present exactly once by construction). -/
def bucketPush (acc : List (String × List String)) (key out : String) :
    List (String × List String) :=
  acc.map fun kv => if kv.1 == key then (kv.1, kv.2 ++ [out]) else kv

/-- `src/index.js` lines 108-120 (`listTasksByProject`), one reduce step on
the accumulator object (an insertion-ordered association list); `none`
models the TypeError thrown when the project name collides with an
inherited `Object.prototype` property. -/
def listTasksByProject (env : DateEnv) (acc : List (String × List String)) (task : Row) :
    Option (List (String × List String)) :=
  let projectName := jsTrim (tpProject task)
  let output := taskOutput env task
  if (acc.lookup projectName).isSome then some (bucketPush acc projectName output)
  else if objectProtoKeys.contains projectName then none
  else some (acc ++ [(projectName, ["\n" ++ projectName ++ ":", output])])

/-- `src/index.js` lines 149-153: a row passes the header test when every
own key equals the camel-case transform of that key's own value. -/
def isHeaderRow (row : Row) : Bool := row.all fun kv => kv.1 == keyToCamelCase kv.2

/-- `json.findIndex(...)` over the header test (`none` for -1). -/
def findHeaderIdx : List Row → Option Nat
  | [] => none
  | r :: rs => if isHeaderRow r then some 0 else (findHeaderIdx rs).map (· + 1)

/-- `src/index.js` line 157: `json = json.splice(headerRowIndex + 1)` keeps
the rows strictly after the header; when `findIndex` returned -1 this is
`splice(0)`, which returns the entire row set. -/
def dataRows (json : List Row) : List Row :=
  match findHeaderIdx json with
  | some i => json.drop (i + 1)
  | none => json

/-- `src/index.js` line 155: `reportError("format")` runs iff no header row
was found. -/
def formatErrorReported (json : List Row) : Bool := (findHeaderIdx json).isNone

/-- The numeric value of a digit string. -/
def digitsVal (l : List Char) : Nat := l.foldl (fun n c => 10 * n + (c.toNat - 48)) 0

/-- A canonical array-index property key in the sense of the JavaScript
object model: the canonical decimal form of an integer below 2^32 - 1.
JavaScript enumerates these own properties first, in ascending numeric
order, before all other string keys. -/
def isArrayIndexKey (s : String) : Bool :=
  !s.data.isEmpty && s.data.all (fun c => c.isDigit) &&
    !(s.data.headD ' ' == '0' && s.data.length != 1) && digitsVal s.data < 4294967295

/-- The enumeration order of the accumulator object's entries, as
`Object.values` sees it: canonical array-index keys first, ascending
numerically, then the remaining keys in insertion order. -/
def objectEntriesOrdered (acc : List (String × List String)) : List (String × List String) :=
  ((acc.filter fun kv => isArrayIndexKey kv.1).mergeSort
      fun a b => decide (digitsVal a.1.data ≤ digitsVal b.1.data)) ++
    (acc.filter fun kv => !isArrayIndexKey kv.1)

/-- `src/index.js` lines 163-165: each bucket is joined with blank lines and
the bucket strings are joined with blank lines. -/
def renderResults (acc : List (String × List String)) : String :=
  joinNN ((objectEntriesOrdered acc).map fun kv => joinNN kv.2)

/-- The reduce of `listTasksByProject` over a row list, starting from the
given accumulator (`{}` at the call site). -/
def foldProjects (env : DateEnv) (acc : List (String × List String)) (rows : List Row) :
    Option (List (String × List String)) :=
  rows.foldlM (listTasksByProject env) acc

/-- `src/index.js` lines 148-172 (`parseJson`): the Boolean records whether
`reportError("format")` ran; the optional string is the text handed to the
`copy` sink, with `none` modelling a TypeError escaping the reduce (in
which case `copy` is never reached). -/
def parseJson (env : DateEnv) (json : List Row) : Bool × Option String :=
  (formatErrorReported json,
   (foldProjects env [] (jsSortRows (dataRows json))).map renderResults)

/-! ### Splitting and joining -/

theorem splitSepL_ne_nil (sep : Char) (l : List Char) : splitSepL sep l ≠ [] := by
  cases l with
  | nil => simp [splitSepL]
  | cons c cs =>
    simp only [splitSepL]
    split <;> simp

theorem exists_cons_of_splitSepL (sep : Char) (l : List Char) :
    ∃ p ps, splitSepL sep l = p :: ps := by
  cases h : splitSepL sep l with
  | nil => exact absurd h (splitSepL_ne_nil sep l)
  | cons p ps => exact ⟨p, ps, rfl⟩

theorem splitSepL_cons_sep (sep : Char) (cs : List Char) :
    splitSepL sep (sep :: cs) = [] :: splitSepL sep cs := by
  simp [splitSepL]

theorem splitSepL_cons_ne (sep c : Char) (cs : List Char) (h : ¬ c = sep) :
    splitSepL sep (c :: cs) =
      (c :: (splitSepL sep cs).headD []) :: (splitSepL sep cs).tail := by
  simp [splitSepL, h]

theorem splitSepL_append (sep : Char) (xs ys : List Char) :
    splitSepL sep (xs ++ sep :: ys) = splitSepL sep xs ++ splitSepL sep ys := by
  induction xs with
  | nil => simp [splitSepL_cons_sep, splitSepL]
  | cons c cs ih =>
    by_cases hc : c = sep
    · subst hc
      rw [List.cons_append, splitSepL_cons_sep, splitSepL_cons_sep, ih, List.cons_append]
    · rw [List.cons_append, splitSepL_cons_ne sep c _ hc, splitSepL_cons_ne sep c cs hc, ih]
      obtain ⟨p, ps, hp⟩ := exists_cons_of_splitSepL sep cs
      simp [hp]

theorem splitSepL_of_no_sep (sep : Char) (l : List Char) (h : sep ∉ l) :
    splitSepL sep l = [l] := by
  induction l with
  | nil => simp [splitSepL]
  | cons c cs ih =>
    have hc : ¬ c = sep := fun e => h (by simp [e])
    rw [splitSepL_cons_ne sep c cs hc, ih (fun e => h (List.mem_cons_of_mem c e))]
    simp

theorem splitSepL_no_sep (sep : Char) (l : List Char) :
    ∀ p ∈ splitSepL sep l, sep ∉ p := by
  induction l with
  | nil =>
    intro p hp
    simp only [splitSepL, List.mem_singleton] at hp
    simp [hp]
  | cons c cs ih =>
    intro p hp
    by_cases hc : c = sep
    · subst hc
      rw [splitSepL_cons_sep] at hp
      rcases List.mem_cons.mp hp with h | h
      · simp [h]
      · exact ih p h
    · rw [splitSepL_cons_ne sep c cs hc] at hp
      obtain ⟨q, qs, hq⟩ := exists_cons_of_splitSepL sep cs
      rw [hq] at hp
      rcases List.mem_cons.mp hp with h | h
      · subst h
        intro hmem
        rcases List.mem_cons.mp hmem with h1 | h1
        · exact hc h1.symm
        · exact ih q (by simp [hq]) (by simpa using h1)
      · refine fun hs => ih p ?_ hs
        rw [hq]
        exact List.mem_cons_of_mem q (by simpa using h)

theorem joinSepL_cons (sep : List Char) (l : List Char) (ls : List (List Char)) (h : ls ≠ []) :
    joinSepL sep (l :: ls) = l ++ sep ++ joinSepL sep ls := by
  cases ls with
  | nil => simp at h
  | cons l' ls' => rfl

theorem splitSepL_joinSepL (sep : Char) (ps : List (List Char)) (hne : ps ≠ [])
    (h : ∀ p ∈ ps, sep ∉ p) : splitSepL sep (joinSepL [sep] ps) = ps := by
  induction ps with
  | nil => simp at hne
  | cons p ps ih =>
    cases ps with
    | nil => exact splitSepL_of_no_sep sep p (h p (by simp))
    | cons q qs =>
      rw [joinSepL_cons _ _ _ (by simp)]
      have he : p ++ [sep] ++ joinSepL [sep] (q :: qs) =
          p ++ sep :: joinSepL [sep] (q :: qs) := by simp
      rw [he, splitSepL_append, splitSepL_of_no_sep sep p (h p (by simp)),
        ih (by simp) (fun r hr => h r (List.mem_cons_of_mem p hr))]
      simp

theorem splitSepL_append_right (sep : Char) (xs ys : List Char) (h : sep ∉ ys) :
    splitSepL sep (xs ++ ys) =
      (splitSepL sep xs).dropLast ++ [(splitSepL sep xs).getLastD [] ++ ys] := by
  induction xs with
  | nil => simp [splitSepL, splitSepL_of_no_sep sep ys h]
  | cons c cs ih =>
    obtain ⟨q, qs, hq⟩ := exists_cons_of_splitSepL sep cs
    by_cases hc : c = sep
    · subst hc
      rw [List.cons_append, splitSepL_cons_sep, splitSepL_cons_sep, ih, hq]
      cases qs with
      | nil => simp
      | cons q' qs' => simp
    · rw [List.cons_append, splitSepL_cons_ne sep c _ hc, splitSepL_cons_ne sep c cs hc, ih, hq]
      cases qs with
      | nil => simp
      | cons q' qs' => simp

/-! ### Trimming -/

theorem mem_dropWhile_of_not (p : Char → Bool) (l : List Char) (c : Char)
    (hc : c ∈ l) (hp : p c = false) : c ∈ l.dropWhile p := by
  induction l with
  | nil => simp at hc
  | cons a as ih =>
    rw [List.dropWhile_cons]
    split
    · rcases List.mem_cons.mp hc with h | h
      · subst h; simp_all
      · exact ih h
    · exact hc

theorem trimL_ne_nil (l : List Char) (c : Char) (hc : c ∈ l) (hw : isJsWs c = false) :
    trimL l ≠ [] := by
  unfold trimL
  intro h
  have h1 : c ∈ l.dropWhile isJsWs := mem_dropWhile_of_not _ _ _ hc hw
  have h2 : c ∈ (l.dropWhile isJsWs).reverse.dropWhile isJsWs :=
    mem_dropWhile_of_not _ _ _ (List.mem_reverse.mpr h1) hw
  rw [List.reverse_eq_nil_iff.mp h] at h2
  simp at h2

theorem trimL_head_not_ws (l : List Char) (c : Char) (cs : List Char)
    (h : trimL l = c :: cs) : isJsWs c = false := by
  have hh : (List.dropWhile isJsWs (List.dropWhile isJsWs l).reverse).getLast? = some c := by
    have h0 : (trimL l).head? = some c := by rw [h]; rfl
    unfold trimL at h0
    rwa [List.head?_reverse] at h0
  obtain ⟨t, ht⟩ :=
    List.dropWhile_suffix (l := (List.dropWhile isJsWs l).reverse) (p := isJsWs)
  have h2 : (List.dropWhile isJsWs l).reverse.getLast? = some c := by
    conv_lhs => rw [← ht]
    rw [List.getLast?_append, hh]
    rfl
  rw [List.getLast?_reverse] at h2
  have hmatch := List.head?_dropWhile_not isJsWs l
  rw [h2] at hmatch
  exact hmatch

theorem trimL_getLast_not_ws (l : List Char) (c : Char)
    (h : (trimL l).getLast? = some c) : isJsWs c = false := by
  unfold trimL at h
  rw [List.getLast?_reverse] at h
  have hmatch := List.head?_dropWhile_not isJsWs (l.dropWhile isJsWs).reverse
  rw [h] at hmatch
  exact hmatch

/-! ### Lines -/

theorem mk_data (s : String) : String.mk s.data = s := rfl

theorem str_eq_empty_iff (s : String) : s = "" ↔ s.data = [] := by
  constructor
  · intro h
    rw [h]
  · intro h
    have h2 := congrArg String.mk h
    rw [mk_data] at h2
    exact h2

/-- Whether a rendered line is whitespace-only (the indent-string package
skips such lines; one blank line in the joined output is such a line). -/
def lineBlank (s : String) : Bool := s.data.all isJsWs

theorem splitNl_ne_nil (s : String) : splitNl s ≠ [] := by
  unfold splitNl
  intro h
  exact splitSepL_ne_nil '\n' s.data (List.map_eq_nil_iff.mp h)

theorem splitNl_no_nl (s : String) : ∀ p ∈ splitNl s, '\n' ∉ p.data := by
  intro p hp
  obtain ⟨q, hq, he⟩ := List.mem_map.mp hp
  rw [← he]
  exact splitSepL_no_sep '\n' s.data q hq

theorem splitNl_join (ls : List String) (hne : ls ≠ [])
    (h : ∀ l ∈ ls, '\n' ∉ l.data) : splitNl (joinNl ls) = ls := by
  unfold splitNl joinNl
  rw [splitSepL_joinSepL '\n' (ls.map String.data) (by simpa using hne)
      (by intro p hp
          obtain ⟨q, hq, he⟩ := List.mem_map.mp hp
          rw [← he]
          exact h q hq)]
  rw [List.map_map]
  exact List.map_id'' (fun s => rfl) ls

theorem splitNl_cons_nl (s : String) : splitNl ("\n" ++ s) = "" :: splitNl s := by
  unfold splitNl
  rw [show ("\n" ++ s).data = '\n' :: s.data from rfl, splitSepL_cons_sep]
  rfl

theorem splitNl_joinNN_cons (b : String) (ls : List String) :
    splitNl (joinNN (b :: ls)) = splitNl b ++ ls.flatMap (fun e => "" :: splitNl e) := by
  induction ls generalizing b with
  | nil =>
    rw [show joinNN [b] = b from congrArg String.mk rfl]
    simp
  | cons e es ih =>
    have hstep : joinNN (b :: e :: es) =
        String.mk (b.data ++ '\n' :: ('\n' :: (joinNN (e :: es)).data)) := by
      unfold joinNN
      rw [List.map_cons, joinSepL_cons _ _ _ (by simp)]
      simp
    rw [hstep]
    unfold splitNl
    rw [show (String.mk (b.data ++ '\n' :: ('\n' :: (joinNN (e :: es)).data))).data
        = b.data ++ '\n' :: ('\n' :: (joinNN (e :: es)).data) from rfl]
    rw [splitSepL_append, splitSepL_cons_sep, List.map_append]
    rw [show (([] : List Char) :: splitSepL '\n' (joinNN (e :: es)).data).map String.mk
        = "" :: splitNl (joinNN (e :: es)) from rfl]
    rw [ih e]
    simp [splitNl]

theorem lineBlank_headD_of_head (s : String) (c : Char) (cs : List Char)
    (h : s.data = c :: cs) (hc : isJsWs c = false) :
    lineBlank ((splitNl s).headD "") = false := by
  have hcn : ¬ c = '\n' := by
    intro e
    subst e
    simp [isJsWs] at hc
  unfold splitNl
  rw [h, splitSepL_cons_ne '\n' c cs hcn]
  simp [lineBlank, hc]

theorem lineBlank_getLastD_of_getLast (s : String) (c : Char)
    (h : s.data.getLast? = some c) (hc : isJsWs c = false) :
    lineBlank ((splitNl s).getLastD "") = false := by
  have hcn : ('\n' : Char) ∉ [c] := by
    intro hmem
    rw [List.mem_singleton] at hmem
    subst hmem
    simp [isJsWs] at hc
  obtain ⟨ys, hys⟩ := List.getLast?_eq_some_iff.mp h
  unfold splitNl
  rw [hys]
  rw [splitSepL_append_right '\n' ys [c] hcn, List.map_append, List.getLastD_eq_getLast?]
  rw [show List.map String.mk [(splitSepL '\n' ys).getLastD [] ++ [c]]
      = [String.mk ((splitSepL '\n' ys).getLastD [] ++ [c])] from rfl]
  rw [List.getLast?_concat]
  simp [lineBlank, List.all_append, hc]

/-- The properties of a rendered block that make the `join("\n\n")`
separator produce exactly one blank line next to it: the block is non-empty
and neither its first nor its last line is whitespace-only. -/
def GoodEntry (e : String) : Prop :=
  e ≠ "" ∧ lineBlank ((splitNl e).headD "") = false ∧
    lineBlank ((splitNl e).getLastD "") = false

theorem joinNl_ne_empty (p : String) (ps : List String) (hp : p ≠ "") :
    joinNl (p :: ps) ≠ "" := by
  intro h
  rw [str_eq_empty_iff] at h
  cases ps with
  | nil => exact hp ((str_eq_empty_iff p).mpr h)
  | cons q qs =>
    rw [show (joinNl (p :: q :: qs)).data
        = p.data ++ ['\n'] ++ joinSepL ['\n'] ((q :: qs).map String.data) from rfl] at h
    rcases List.append_eq_nil.mp h with ⟨h1, h2⟩
    rcases List.append_eq_nil.mp h1 with ⟨h3, h4⟩
    exact List.cons_ne_nil _ _ h4

theorem splitNl_indentString_tab (s : String) :
    splitNl (indentString s 1 "\t") =
      (splitNl s).map fun l => if l.data.all isJsWs then l else "\t" ++ l := by
  have hjoin : indentString s 1 "\t" =
      joinNl ((splitNl s).map fun l => if l.data.all isJsWs then l else "\t" ++ l) := rfl
  rw [hjoin, splitNl_join]
  · intro h
    exact splitNl_ne_nil s (List.map_eq_nil_iff.mp h)
  · intro l hl
    obtain ⟨q, hq, he⟩ := List.mem_map.mp hl
    subst he
    by_cases hb : q.data.all isJsWs
    · rw [if_pos hb]
      exact splitNl_no_nl s q hq
    · rw [if_neg hb]
      intro hmem
      rw [show ("\t" ++ q).data = '\t' :: q.data from rfl] at hmem
      rcases List.mem_cons.mp hmem with h | h
      · exact absurd h (by decide)
      · exact splitNl_no_nl s q hq h

theorem goodEntry_indent (t : String) (c : Char) (cs : List Char)
    (hdata : t.data = c :: cs) (hch : isJsWs c = false)
    (d : Char) (hlast : t.data.getLast? = some d) (hdh : isJsWs d = false) :
    GoodEntry (indentString t 1 "\t") := by
  have hhead : lineBlank ((splitNl t).headD "") = false :=
    lineBlank_headD_of_head t c cs hdata hch
  have hlastline : lineBlank ((splitNl t).getLastD "") = false :=
    lineBlank_getLastD_of_getLast t d hlast hdh
  obtain ⟨x, xs, hx⟩ : ∃ x xs, splitNl t = x :: xs := by
    cases h : splitNl t with
    | nil => exact absurd h (splitNl_ne_nil t)
    | cons x xs => exact ⟨x, xs, rfl⟩
  have hxb : lineBlank x = false := by rw [hx] at hhead; simpa using hhead
  have hfx : (if x.data.all isJsWs then x else "\t" ++ x) = "\t" ++ x := if_neg (by
    rw [show x.data.all isJsWs = lineBlank x from rfl, hxb]
    simp)
  refine ⟨?_, ?_, ?_⟩
  · have : indentString t 1 "\t" =
        joinNl ((splitNl t).map fun l => if l.data.all isJsWs then l else "\t" ++ l) := rfl
    rw [this, hx, List.map_cons, hfx]
    apply joinNl_ne_empty
    intro h
    rw [str_eq_empty_iff] at h
    exact List.cons_ne_nil _ _ h
  · rw [splitNl_indentString_tab, hx, List.map_cons, hfx, List.headD_cons]
    rw [show lineBlank ("\t" ++ x) = (('\t' :: x.data).all isJsWs) from rfl]
    rw [List.all_cons]
    rw [show x.data.all isJsWs = lineBlank x from rfl, hxb]
    simp
  · rw [splitNl_indentString_tab, List.getLastD_eq_getLast?, List.getLast?_map]
    obtain ⟨y, hy⟩ : ∃ y, (splitNl t).getLast? = some y := by
      rw [hx]
      cases h : (x :: xs).getLast? with
      | some y => exact ⟨y, rfl⟩
      | none => exact absurd (List.getLast?_eq_none_iff.mp h) (List.cons_ne_nil x xs)
    have hyb : lineBlank y = false := by
      rw [List.getLastD_eq_getLast?, hy] at hlastline
      simpa using hlastline
    rw [hy]
    have hfy : (if y.data.all isJsWs then y else "\t" ++ y) = "\t" ++ y := if_neg (by
      rw [show y.data.all isJsWs = lineBlank y from rfl, hyb]
      simp)
    rw [show (Option.map (fun l => if l.data.all isJsWs then l else "\t" ++ l)
        (some y)).getD "" = (if y.data.all isJsWs then y else "\t" ++ y) from rfl, hfy]
    rw [show lineBlank ("\t" ++ y) = (('\t' :: y.data).all isJsWs) from rfl, List.all_cons]
    rw [show y.data.all isJsWs = lineBlank y from rfl, hyb]
    simp

theorem taskOutput_eq (env : DateEnv) (task : Row) :
    taskOutput env task = indentString (jsTrim ("\n- " ++ tpTitle task ++
      (" " ++ tpDefer env task ++ tpDue env task ++ tpDone env task) ++
      (" " ++ tpFlagged task ++ tpRepeat task ++ tpTags task) ++ "\n" ++
      indentString (tpNote task) 1 "\t")) 1 "\t" := rfl

theorem taskOutput_good (env : DateEnv) (task : Row) : GoodEntry (taskOutput env task) := by
  rw [taskOutput_eq]
  set big := "\n- " ++ tpTitle task ++
      (" " ++ tpDefer env task ++ tpDue env task ++ tpDone env task) ++
      (" " ++ tpFlagged task ++ tpRepeat task ++ tpTags task) ++ "\n" ++
      indentString (tpNote task) 1 "\t" with hbig
  have hmem : ('-' : Char) ∈ big.data := by
    rw [hbig]
    rw [show ("\n- " ++ tpTitle task ++
        (" " ++ tpDefer env task ++ tpDue env task ++ tpDone env task) ++
        (" " ++ tpFlagged task ++ tpRepeat task ++ tpTags task) ++ "\n" ++
        indentString (tpNote task) 1 "\t").data = '\n' :: '-' :: ' ' ::
        (tpTitle task ++
        (" " ++ tpDefer env task ++ tpDue env task ++ tpDone env task) ++
        (" " ++ tpFlagged task ++ tpRepeat task ++ tpTags task) ++ "\n" ++
        indentString (tpNote task) 1 "\t").data from by simp [String.data_append]]
    exact List.mem_cons_of_mem _ (List.mem_cons_self _ _)
  have hne : (jsTrim big).data ≠ [] := by
    rw [show (jsTrim big).data = trimL big.data from rfl]
    exact trimL_ne_nil big.data '-' hmem (by decide)
  obtain ⟨c, cs, hcs⟩ := List.exists_cons_of_ne_nil hne
  obtain ⟨d, hd⟩ : ∃ d, (jsTrim big).data.getLast? = some d := by
    cases h : (jsTrim big).data.getLast? with
    | some d => exact ⟨d, rfl⟩
    | none => exact absurd (List.getLast?_eq_none_iff.mp h) hne
  exact goodEntry_indent (jsTrim big) c cs hcs
    (trimL_head_not_ws big.data c cs hcs)
    d hd (trimL_getLast_not_ws big.data d hd)

theorem listTasksByProject_eq (env : DateEnv) (acc : List (String × List String)) (task : Row) :
    listTasksByProject env acc task =
      if (acc.lookup (jsTrim (tpProject task))).isSome then
        some (bucketPush acc (jsTrim (tpProject task)) (taskOutput env task))
      else if objectProtoKeys.contains (jsTrim (tpProject task)) then none
      else some (acc ++ [(jsTrim (tpProject task),
        ["\n" ++ jsTrim (tpProject task) ++ ":", taskOutput env task])]) := rfl

/-- The bucket shape invariant maintained by the reduce: every bucket starts
with its project header line (which carries a leading newline) and every
further element is a good rendered block. -/
def BucketsOk (acc : List (String × List String)) : Prop :=
  ∀ kv ∈ acc, ∃ entries, kv.2 = ("\n" ++ kv.1 ++ ":") :: entries ∧ ∀ e ∈ entries, GoodEntry e

theorem bucketsOk_step (env : DateEnv) (acc acc' : List (String × List String)) (task : Row)
    (hok : BucketsOk acc) (h : listTasksByProject env acc task = some acc') : BucketsOk acc' := by
  rw [listTasksByProject_eq] at h
  by_cases hl : (acc.lookup (jsTrim (tpProject task))).isSome
  · rw [if_pos hl] at h
    have hacc : acc' = bucketPush acc (jsTrim (tpProject task)) (taskOutput env task) :=
      (Option.some_inj.mp h).symm
    subst hacc
    intro kv hkv
    obtain ⟨old, hold, he⟩ := List.mem_map.mp hkv
    obtain ⟨entries, hent, hgood⟩ := hok old hold
    by_cases heq : old.1 == jsTrim (tpProject task)
    · rw [if_pos heq] at he
      refine ⟨entries ++ [taskOutput env task], ?_, ?_⟩
      · rw [← he]
        simp only []
        rw [hent]
        rfl
      · intro e hee
        rcases List.mem_append.mp hee with h1 | h1
        · exact hgood e h1
        · rw [List.mem_singleton] at h1
          subst h1
          exact taskOutput_good env task
    · rw [if_neg heq] at he
      subst he
      exact ⟨entries, hent, hgood⟩
  · rw [if_neg hl] at h
    by_cases hp : objectProtoKeys.contains (jsTrim (tpProject task))
    · rw [if_pos hp] at h
      exact absurd h (by simp)
    · rw [if_neg hp] at h
      have hacc : acc' = acc ++ [(jsTrim (tpProject task),
          ["\n" ++ jsTrim (tpProject task) ++ ":", taskOutput env task])] :=
        (Option.some_inj.mp h).symm
      subst hacc
      intro kv hkv
      rcases List.mem_append.mp hkv with h1 | h1
      · exact hok kv h1
      · rw [List.mem_singleton] at h1
        subst h1
        exact ⟨[taskOutput env task], rfl, by
          intro e hee
          rw [List.mem_singleton] at hee
          subst hee
          exact taskOutput_good env task⟩

theorem foldProjects_ok (env : DateEnv) :
    ∀ (rows : List Row) (acc acc' : List (String × List String)), BucketsOk acc →
      foldProjects env acc rows = some acc' → BucketsOk acc' := by
  intro rows
  induction rows with
  | nil =>
    intro acc acc' hok h
    unfold foldProjects at h
    simp only [List.foldlM_nil] at h
    rwa [← Option.some_inj.mp h]
  | cons r rs ih =>
    intro acc acc' hok h
    unfold foldProjects at h
    rw [List.foldlM_cons] at h
    cases hstep : listTasksByProject env acc r with
    | none =>
      rw [hstep] at h
      simp at h
    | some acc1 =>
      rw [hstep] at h
      simp only [Option.bind_eq_bind, Option.some_bind] at h
      exact ih acc1 acc' (bucketsOk_step env acc acc1 r hok hstep) h

/-- The lines of one joined bucket: the header's leading newline makes the
first line blank, and every entry is preceded by exactly one blank line. -/
theorem bucket_splitNl (key : String) (entries : List String) :
    splitNl (joinNN (("\n" ++ key ++ ":") :: entries)) =
      "" :: splitNl (key ++ ":") ++ entries.flatMap (fun e => "" :: splitNl e) := by
  rw [splitNl_joinNN_cons]
  rw [show ("\n" ++ key ++ ":") = "\n" ++ (key ++ ":") from by simp [String.append_assoc]]
  rw [splitNl_cons_nl]

theorem getLast?_flatMap_blank (l : List String) (hne : l ≠ []) :
    ∃ z ∈ l, (l.flatMap (fun e => "" :: splitNl e)).getLast? = (splitNl z).getLast? := by
  induction l with
  | nil => exact absurd rfl hne
  | cons z zs ih =>
    cases zs with
    | nil =>
      refine ⟨z, by simp, ?_⟩
      obtain ⟨x, xs, hx⟩ : ∃ x xs, splitNl z = x :: xs := by
        cases h : splitNl z with
        | nil => exact absurd h (splitNl_ne_nil z)
        | cons x xs => exact ⟨x, xs, rfl⟩
      simp only [List.flatMap_cons, List.flatMap_nil, List.append_nil, hx]
      rw [List.getLast?_cons_cons]
    | cons z' zs' =>
      obtain ⟨w, hw, hwe⟩ := ih (by simp)
      refine ⟨w, List.mem_cons_of_mem z hw, ?_⟩
      rw [List.flatMap_cons, List.getLast?_append, hwe]
      obtain ⟨x, xs, hx⟩ : ∃ x xs, splitNl w = x :: xs := by
        cases h : splitNl w with
        | nil => exact absurd h (splitNl_ne_nil w)
        | cons x xs => exact ⟨x, xs, rfl⟩
      rw [hx]
      cases hgl : (x :: xs).getLast? with
      | some v => rfl
      | none => exact absurd (List.getLast?_eq_none_iff.mp hgl) (List.cons_ne_nil x xs)

theorem bucket_last_not_blank (key : String) (entries : List String)
    (hgood : ∀ e ∈ entries, GoodEntry e) :
    lineBlank ((splitNl (joinNN (("\n" ++ key ++ ":") :: entries))).getLastD "") = false := by
  cases entries with
  | nil =>
    rw [show joinNN [("\n" ++ key ++ ":")] = "\n" ++ key ++ ":" from congrArg String.mk rfl]
    apply lineBlank_getLastD_of_getLast _ ':'
    · rw [show ("\n" ++ key ++ ":").data = ('\n' :: key.data) ++ [':'] from by
        simp [String.data_append]]
      exact List.getLast?_concat _
    · decide
  | cons e es =>
    rw [bucket_splitNl]
    obtain ⟨z, hz, hze⟩ := getLast?_flatMap_blank (e :: es) (by simp)
    obtain ⟨x, xs, hx⟩ : ∃ x xs, splitNl z = x :: xs := by
      cases h : splitNl z with
      | nil => exact absurd h (splitNl_ne_nil z)
      | cons x xs => exact ⟨x, xs, rfl⟩
    have hsome : ∃ v, ((e :: es).flatMap (fun e => "" :: splitNl e)).getLast? = some v ∧
        (splitNl z).getLast? = some v := by
      rw [hze, hx]
      cases hgl : (x :: xs).getLast? with
      | some v => exact ⟨v, rfl, rfl⟩
      | none => exact absurd (List.getLast?_eq_none_iff.mp hgl) (List.cons_ne_nil x xs)
    obtain ⟨v, hv1, hv2⟩ := hsome
    rw [List.getLastD_eq_getLast?, List.getLast?_append, hv1]
    have hzgood := hgood z hz
    have : lineBlank ((splitNl z).getLastD "") = false := hzgood.2.2
    rw [List.getLastD_eq_getLast?, hv2] at this
    simpa using this

theorem mem_objectEntriesOrdered (acc : List (String × List String))
    (kv : String × List String) (h : kv ∈ objectEntriesOrdered acc) : kv ∈ acc := by
  unfold objectEntriesOrdered at h
  rcases List.mem_append.mp h with h | h
  · exact (List.mem_filter.mp (List.mem_mergeSort.mp h)).1
  · exact (List.mem_filter.mp h).1

theorem objectEntriesOrdered_of_no_idx (acc : List (String × List String))
    (h : ∀ kv ∈ acc, isArrayIndexKey kv.1 = false) : objectEntriesOrdered acc = acc := by
  unfold objectEntriesOrdered
  have h1 : acc.filter (fun kv => isArrayIndexKey kv.1) = [] :=
    List.filter_eq_nil_iff.mpr (fun a ha => by rw [h a ha]; simp)
  have h2 : acc.filter (fun kv => !isArrayIndexKey kv.1) = acc :=
    List.filter_eq_self.mpr (fun a ha => by rw [h a ha]; rfl)
  rw [h1, h2]
  simp

theorem objectEntriesOrdered_ne_nil (acc : List (String × List String))
    (h : acc ≠ []) : objectEntriesOrdered acc ≠ [] := by
  unfold objectEntriesOrdered
  intro he
  rcases List.append_eq_nil.mp he with ⟨h1, h2⟩
  have hp1 : acc.filter (fun kv => isArrayIndexKey kv.1) = [] := by
    have hlen := congrArg List.length h1
    rw [List.length_mergeSort] at hlen
    exact List.eq_nil_of_length_eq_zero (by simpa using hlen)
  cases acc with
  | nil => exact h rfl
  | cons a as =>
    by_cases hpa : isArrayIndexKey a.1
    · have : a ∈ (a :: as).filter (fun kv => isArrayIndexKey kv.1) :=
        List.mem_filter.mpr ⟨List.mem_cons_self a as, hpa⟩
      rw [hp1] at this
      simp at this
    · have : a ∈ (a :: as).filter (fun kv => !isArrayIndexKey kv.1) :=
        List.mem_filter.mpr ⟨List.mem_cons_self a as, by simp [hpa]⟩
      rw [h2] at this
      simp at this

/-! ### The comparator's order -/

theorem bool_eq_false {b : Bool} (h : ¬ b = true) : b = false := by
  cases b
  · rfl
  · exact absurd rfl h

theorem lexLt_irrefl : ∀ x : List Nat, lexLt x x = false := by
  intro x
  induction x with
  | nil => rfl
  | cons a as ih =>
    unfold lexLt
    simp [ih]

theorem lexLt_asymm : ∀ x y : List Nat, lexLt x y = true → lexLt y x = false := by
  intro x
  induction x with
  | nil =>
    intro y h
    cases y with
    | nil => simp [lexLt] at h
    | cons b bs => simp [lexLt]
  | cons a as ih =>
    intro y h
    cases y with
    | nil => simp [lexLt] at h
    | cons b bs =>
      unfold lexLt at h ⊢
      by_cases hab : a < b
      · have hba : ¬ b < a := by omega
        simp [hab, hba]
      · rw [if_neg hab] at h
        by_cases hba : b < a
        · rw [if_pos hba] at h
          exact absurd h (by simp)
        · rw [if_neg hba] at h
          simp [hba, hab, ih bs h]

theorem lexLt_trans : ∀ x y z : List Nat,
    lexLt x y = true → lexLt y z = true → lexLt x z = true := by
  intro x
  induction x with
  | nil =>
    intro y z hxy hyz
    cases y with
    | nil => simp [lexLt] at hxy
    | cons b bs =>
      cases z with
      | nil => simp [lexLt] at hyz
      | cons c cs => simp [lexLt]
  | cons a as ih =>
    intro y z hxy hyz
    cases y with
    | nil => simp [lexLt] at hxy
    | cons b bs =>
      cases z with
      | nil => simp [lexLt] at hyz
      | cons c cs =>
        unfold lexLt at hxy hyz ⊢
        by_cases hab : a < b
        · by_cases hbc : b < c
          · have : a < c := by omega
            simp [this]
          · rw [if_neg hbc] at hyz
            by_cases hcb : c < b
            · rw [if_pos hcb] at hyz
              exact absurd hyz (by simp)
            · have hbceq : b = c := by omega
              subst hbceq
              simp [hab]
        · rw [if_neg hab] at hxy
          by_cases hba : b < a
          · rw [if_pos hba] at hxy
            exact absurd hxy (by simp)
          · rw [if_neg hba] at hxy
            have habeq : a = b := by omega
            subst habeq
            by_cases hac : a < c
            · simp [hac]
            · rw [if_neg hac] at hyz ⊢
              by_cases hca : c < a
              · rw [if_pos hca] at hyz
                exact absurd hyz (by simp)
              · rw [if_neg hca] at hyz ⊢
                exact ih bs cs hxy hyz

theorem lexLt_eq_of_not : ∀ x y : List Nat,
    lexLt x y = false → lexLt y x = false → x = y := by
  intro x
  induction x with
  | nil =>
    intro y h1 h2
    cases y with
    | nil => rfl
    | cons b bs => simp [lexLt] at h1
  | cons a as ih =>
    intro y h1 h2
    cases y with
    | nil => simp [lexLt] at h2
    | cons b bs =>
      unfold lexLt at h1 h2
      by_cases hab : a < b
      · rw [if_pos hab] at h1
        exact absurd h1 (by simp)
      · rw [if_neg hab] at h1
        by_cases hba : b < a
        · rw [if_pos hba] at h2
          exact absurd h2 (by simp)
        · rw [if_neg hba] at h1
          rw [if_neg hba, if_neg hab] at h2
          have habeq : a = b := by omega
          subst habeq
          rw [ih bs h1 h2]

/-- The UTF-16 units of the comparator's project key. -/
def keyUnits (a : Row) : List Nat := utf16Units (comparatorKey a)

/-- The UTF-16 units of the coerced `createdTime` value. -/
def createdUnits (a : Row) : List Nat := utf16Units (jsToString (rowGet a "createdTime"))

/-- A comparator with the same key structure as `sortLe` but with the
secondary comparison made total on all values; it agrees with `sortLe` on
rows whose `createdTime` is a string, and it is transitive and total
everywhere. -/
def totalLe (a b : Row) : Bool :=
  lexLt (keyUnits a) (keyUnits b) ||
    (!lexLt (keyUnits b) (keyUnits a) && !lexLt (createdUnits b) (createdUnits a))

theorem totalLe_total : ∀ a b : Row, (totalLe a b || totalLe b a) = true := by
  intro a b
  unfold totalLe
  cases h1 : lexLt (keyUnits a) (keyUnits b) with
  | true => simp
  | false =>
    cases h2 : lexLt (keyUnits b) (keyUnits a) with
    | true => simp
    | false =>
      cases h3 : lexLt (createdUnits b) (createdUnits a) with
      | false => simp
      | true =>
        have h4 : lexLt (createdUnits a) (createdUnits b) = false := lexLt_asymm _ _ h3
        simp [h4]

theorem totalLe_trans : ∀ a b c : Row,
    totalLe a b = true → totalLe b c = true → totalLe a c = true := by
  intro a b c hab hbc
  unfold totalLe at hab hbc ⊢
  simp only [Bool.or_eq_true, Bool.and_eq_true, Bool.not_eq_true'] at hab hbc ⊢
  rcases hab with h1 | ⟨h1, h2⟩ <;> rcases hbc with h3 | ⟨h3, h4⟩
  · exact Or.inl (lexLt_trans _ _ _ h1 h3)
  · by_cases hbc2 : lexLt (keyUnits b) (keyUnits c) = true
    · exact Or.inl (lexLt_trans _ _ _ h1 hbc2)
    · have hkey : keyUnits b = keyUnits c :=
        lexLt_eq_of_not _ _ (bool_eq_false hbc2) h3
      rw [← hkey]
      exact Or.inl h1
  · by_cases hab2 : lexLt (keyUnits a) (keyUnits b) = true
    · exact Or.inl (lexLt_trans _ _ _ hab2 h3)
    · have hkey : keyUnits a = keyUnits b :=
        lexLt_eq_of_not _ _ (bool_eq_false hab2) h1
      rw [hkey]
      exact Or.inl h3
  · by_cases hab2 : lexLt (keyUnits a) (keyUnits b) = true
    · by_cases hbc2 : lexLt (keyUnits b) (keyUnits c) = true
      · exact Or.inl (lexLt_trans _ _ _ hab2 hbc2)
      · have hkey : keyUnits b = keyUnits c :=
          lexLt_eq_of_not _ _ (bool_eq_false hbc2) h3
        rw [← hkey]
        exact Or.inl hab2
    · have habeq : keyUnits a = keyUnits b :=
        lexLt_eq_of_not _ _ (bool_eq_false hab2) h1
      by_cases hbc2 : lexLt (keyUnits b) (keyUnits c) = true
      · rw [habeq]
        exact Or.inl hbc2
      · have hbceq : keyUnits b = keyUnits c :=
          lexLt_eq_of_not _ _ (bool_eq_false hbc2) h3
        refine Or.inr ⟨?_, ?_⟩
        · rw [← hbceq]
          exact h1
        · by_cases hcc : lexLt (createdUnits c) (createdUnits a) = true
          · by_cases hcb2 : lexLt (createdUnits b) (createdUnits c) = true
            · exact absurd (lexLt_trans _ _ _ hcb2 hcc) (by rw [h2]; simp)
            · have hceq : createdUnits b = createdUnits c :=
                lexLt_eq_of_not _ _ (bool_eq_false hcb2) h4
              rw [← hceq] at hcc
              exact absurd hcc (by rw [h2]; simp)
          · exact bool_eq_false hcc

theorem sortLe_eq_totalLe (a b : Row)
    (ha : isStrVal (rowGet a "createdTime") = true)
    (hb : isStrVal (rowGet b "createdTime") = true) :
    sortLe a b = totalLe a b := by
  obtain ⟨sa, hsa⟩ : ∃ s, rowGet a "createdTime" = JSVal.str s := by
    cases h : rowGet a "createdTime" with
    | str s => exact ⟨s, rfl⟩
    | undef => rw [h] at ha; simp [isStrVal] at ha
    | null => rw [h] at ha; simp [isStrVal] at ha
  obtain ⟨sb, hsb⟩ : ∃ s, rowGet b "createdTime" = JSVal.str s := by
    cases h : rowGet b "createdTime" with
    | str s => exact ⟨s, rfl⟩
    | undef => rw [h] at hb; simp [isStrVal] at hb
    | null => rw [h] at hb; simp [isStrVal] at hb
  unfold sortLe sortByProjectAndCreation totalLe keyUnits createdUnits jsLtVal jsLtStr
  rw [hsa, hsb]
  simp only [jsToString]
  rcases Bool.eq_false_or_eq_true
      (lexLt (utf16Units (comparatorKey a)) (utf16Units (comparatorKey b))) with h1 | h1 <;>
    rcases Bool.eq_false_or_eq_true
        (lexLt (utf16Units (comparatorKey b)) (utf16Units (comparatorKey a))) with h2 | h2 <;>
      rcases Bool.eq_false_or_eq_true (lexLt (utf16Units sa) (utf16Units sb)) with h3 | h3 <;>
        rcases Bool.eq_false_or_eq_true (lexLt (utf16Units sb) (utf16Units sa)) with h4 | h4
  all_goals first
    | (exact Bool.noConfusion ((lexLt_asymm _ _ h3).symm.trans h4))
    | simp [h1, h2, h3, h4]

theorem jsSortRows_eq_total (rows : List Row)
    (hstr : ∀ r ∈ rows, isStrVal (rowGet r "createdTime") = true) :
    jsSortRows rows = rows.mergeSort totalLe := by
  have h := List.map_mergeSort (r := sortLe) (s := totalLe) (f := id) (l := rows)
    (by
      intro a ha b hb
      simpa using sortLe_eq_totalLe a b (hstr a ha) (hstr b hb))
  simpa using h

theorem mergeSort_pair {α : Type} (le : α → α → Bool) (a b : α) :
    [a, b].mergeSort le = if le a b then [a, b] else [b, a] := by
  rw [List.mergeSort]
  simp [List.splitInTwo, List.merge]

/-! ### Header detection -/

theorem findHeaderIdx_some (json : List Row) :
    ∀ i, findHeaderIdx json = some i →
      isHeaderRow (json.getD i []) = true ∧
        ∀ j, j < i → isHeaderRow (json.getD j []) = false := by
  induction json with
  | nil =>
    intro i h
    simp [findHeaderIdx] at h
  | cons r rs ih =>
    intro i h
    unfold findHeaderIdx at h
    by_cases hr : isHeaderRow r
    · rw [if_pos hr] at h
      obtain rfl : (0 : Nat) = i := Option.some_inj.mp h
      refine ⟨by simpa using hr, ?_⟩
      intro j hj
      exact absurd hj (by omega)
    · rw [if_neg hr] at h
      obtain ⟨k, hk, rfl⟩ : ∃ k, findHeaderIdx rs = some k ∧ k + 1 = i := by
        cases hh : findHeaderIdx rs with
        | none => rw [hh] at h; simp at h
        | some k =>
          rw [hh] at h
          simp only [Option.map_some'] at h
          exact ⟨k, rfl, Option.some_inj.mp h⟩
      obtain ⟨h1, h2⟩ := ih k hk
      constructor
      · simpa using h1
      · intro j hj
        cases j with
        | zero => simpa using bool_eq_false hr
        | succ j' => simpa using h2 j' (by omega)

theorem findHeaderIdx_none_mem (json : List Row) (h : findHeaderIdx json = none) :
    ∀ row ∈ json, isHeaderRow row = false := by
  induction json with
  | nil =>
    intro row hr
    simp at hr
  | cons r rs ih =>
    unfold findHeaderIdx at h
    by_cases hr : isHeaderRow r
    · rw [if_pos hr] at h
      simp at h
    · rw [if_neg hr] at h
      have hrs : findHeaderIdx rs = none := by
        cases hh : findHeaderIdx rs with
        | none => rfl
        | some k => rw [hh] at h; simp at h
      intro row hrow
      rcases List.mem_cons.mp hrow with h1 | h1
      · subst h1
        exact bool_eq_false hr
      · exact ih hrs row h1

/-! ### Bucket keys -/

/-- One step of first-encounter accumulation of bucket keys. -/
def insertNewKey (ks : List String) (k : String) : List String :=
  if ks.contains k then ks else ks ++ [k]

/-- First-encounter deduplication of a key sequence. -/
def dedupFirst (ks : List String) : List String := ks.foldl insertNewKey []

/-- The bucket keys in the order the rendering enumerates them. -/
def renderedKeys (acc : List (String × List String)) : List String :=
  (objectEntriesOrdered acc).map fun kv => kv.1

theorem lookup_isSome_iff_contains (acc : List (String × List String)) (k : String) :
    (acc.lookup k).isSome = (acc.map (fun kv => kv.1)).contains k := by
  induction acc with
  | nil => rfl
  | cons a as ih =>
    by_cases hk : k == a.1
    · simp [List.lookup, hk, List.contains_cons]
    · simp only [List.lookup, hk, List.map_cons, List.contains_cons]
      rw [ih]
      simp [show (k == a.1) = false from bool_eq_false hk]

theorem bucketPush_keys (acc : List (String × List String)) (k out : String) :
    (bucketPush acc k out).map (fun kv => kv.1) = acc.map (fun kv => kv.1) := by
  unfold bucketPush
  rw [List.map_map]
  apply List.map_congr_left
  intro kv _
  by_cases hkv : kv.1 = k <;> simp [hkv]

theorem foldProjects_keys (env : DateEnv) :
    ∀ (rows : List Row) (acc acc' : List (String × List String)),
      foldProjects env acc rows = some acc' →
      acc'.map (fun kv => kv.1) =
        rows.foldl (fun ks task => insertNewKey ks (jsTrim (tpProject task)))
          (acc.map (fun kv => kv.1)) := by
  intro rows
  induction rows with
  | nil =>
    intro acc acc' h
    unfold foldProjects at h
    simp only [List.foldlM_nil] at h
    rw [← Option.some_inj.mp h]
    rfl
  | cons r rs ih =>
    intro acc acc' h
    unfold foldProjects at h
    rw [List.foldlM_cons] at h
    cases hstep : listTasksByProject env acc r with
    | none =>
      rw [hstep] at h
      simp at h
    | some acc1 =>
      rw [hstep] at h
      simp only [Option.bind_eq_bind, Option.some_bind] at h
      have hk : acc1.map (fun kv => kv.1) =
          insertNewKey (acc.map (fun kv => kv.1)) (jsTrim (tpProject r)) := by
        rw [listTasksByProject_eq] at hstep
        by_cases hl : (acc.lookup (jsTrim (tpProject r))).isSome
        · rw [if_pos hl] at hstep
          have hacc : acc1 = bucketPush acc (jsTrim (tpProject r)) (taskOutput env r) :=
            (Option.some_inj.mp hstep).symm
          subst hacc
          rw [bucketPush_keys, insertNewKey, if_pos]
          rw [← lookup_isSome_iff_contains]
          exact hl
        · rw [if_neg hl] at hstep
          by_cases hp : objectProtoKeys.contains (jsTrim (tpProject r))
          · rw [if_pos hp] at hstep
            exact absurd hstep (by simp)
          · rw [if_neg hp] at hstep
            have hacc : acc1 = acc ++ [(jsTrim (tpProject r),
                ["\n" ++ jsTrim (tpProject r) ++ ":", taskOutput env r])] :=
              (Option.some_inj.mp hstep).symm
            subst hacc
            rw [List.map_append, insertNewKey, if_neg]
            · rfl
            · rw [← lookup_isSome_iff_contains]
              intro hcon
              exact hl hcon
      rw [ih acc1 acc' h, List.foldl_cons, hk]

/-! ### Helpers for the claim theorems -/

theorem str_ext (s t : String) (h : s.data = t.data) : s = t := by
  cases s
  cases t
  exact congrArg String.mk h

theorem append_left_ne_empty (s t : String) (hs : s ≠ "") : s ++ t ≠ "" := by
  intro h
  rw [str_eq_empty_iff] at h
  rw [String.data_append] at h
  rcases List.append_eq_nil.mp h with ⟨h1, h2⟩
  exact hs ((str_eq_empty_iff s).mpr h1)

/-- A concrete date environment used to witness the theorems: one valid
ISO instant set (every non-empty string), one recognised IANA zone, and a
constant rendering. -/
def demoEnv : DateEnv where
  validISO := fun s => s != ""
  validZone := fun z => z == "America/New_York"
  localZone := "UTC"
  fmt := fun _ _ => "03/01/2024 7:00:00 AM"

theorem reformatDates_ne_empty (env : DateEnv) (hfmt : ∀ d z, env.fmt d z ≠ "")
    (dt tz : JSVal) (x : String) (h : reformatDates env dt tz = some x) : x ≠ "" := by
  cases dt with
  | undef => simp [reformatDates] at h
  | null => simp [reformatDates] at h
  | str d =>
    simp only [reformatDates] at h
    by_cases hcond : (d == "" || !env.validISO d) = true
    · rw [if_pos hcond] at h
      simp at h
    · rw [if_neg hcond] at h
      have hx : x = setZoneFormat env d tz := (Option.some_inj.mp h).symm
      subst hx
      cases tz with
      | undef => exact hfmt _ _
      | null => exact hfmt _ _
      | str z =>
        simp only [setZoneFormat]
        split_ifs <;> first
          | exact hfmt _ _
          | decide

/-- Claim C1: the done encoder emits the fragment exactly when the status is
non-zero (the loose comparison on the numeric value of the status string)
and `reformatDates` returns a date; a record with status 0 never produces a
done tag, whatever its completedTime. -/
theorem c1_done_iff (env : DateEnv) (row : Row) (s : String) (n : Int)
    (hs : rowGet row "status" = JSVal.str s) (hn : jsToNumber s = some n)
    (hfmt : ∀ d z, env.fmt d z ≠ "") :
    (tpDone env row ≠ "" ↔ n ≠ 0 ∧
      (reformatDates env (rowGet row "completedTime") (rowGet row "timezone")).isSome = true)
    ∧ (∀ d, reformatDates env (rowGet row "completedTime") (rowGet row "timezone") = some d →
        n ≠ 0 → tpDone env row = " @done(" ++ d ++ ")")
    ∧ (n = 0 → tpDone env row = "") := by
  have hstatus : jsLooseNeqZero (rowGet row "status") = (some n != some 0) := by
    rw [hs]
    simp only [jsLooseNeqZero]
    rw [hn]
  have htd : tpDone env row =
      if jsLooseNeqZero (rowGet row "status") &&
          optTruthy (reformatDates env (rowGet row "completedTime") (rowGet row "timezone")) then
        " @done(" ++
          (reformatDates env (rowGet row "completedTime") (rowGet row "timezone")).getD "" ++ ")"
      else "" := rfl
  cases hcd : reformatDates env (rowGet row "completedTime") (rowGet row "timezone") with
  | none =>
    rw [hcd] at htd
    rw [show optTruthy none = false from rfl] at htd
    simp only [Bool.and_false, if_false] at htd
    refine ⟨?_, ?_, ?_⟩
    · rw [htd]
      simp
    · intro d hd
      exact absurd hd (by simp)
    · intro _
      exact htd
  | some x =>
    have hx : x ≠ "" := reformatDates_ne_empty env hfmt _ _ x hcd
    rw [hcd] at htd
    rw [show optTruthy (some x) = (x != "") from rfl,
      show (x != "") = true from by simpa using hx] at htd
    simp only [Bool.and_true, Option.getD_some] at htd
    by_cases hn0 : n = 0
    · subst hn0
      rw [show ((some (0 : Int)) != some 0) = false from by simp] at hstatus
      rw [hstatus] at htd
      simp only [if_false, Bool.false_eq_true] at htd
      refine ⟨?_, ?_, ?_⟩
      · rw [htd]
        simp
      · intro d _ hd0
        exact absurd rfl hd0
      · intro _
        exact htd
    · rw [show ((some n) != some 0) = true from by simpa using hn0] at hstatus
      rw [hstatus] at htd
      simp only [if_true] at htd
      refine ⟨?_, ?_, ?_⟩
      · rw [htd]
        constructor
        · intro _
          exact ⟨hn0, rfl⟩
        · intro _
          exact append_left_ne_empty _ _ (append_left_ne_empty " @done(" x (by decide))
      · intro d hd _
        rw [htd, Option.some_inj.mp hd]
      · intro h0
        exact absurd h0 hn0

/-- A completed row with a parseable completion instant and a recognised
zone, used to witness C1. -/
def c1Row : Row :=
  [("status", "2"), ("completedTime", "2024-03-01T12:00:00.000+0000"),
   ("timezone", "America/New_York")]

/-- Witness for C1 at a concrete completed record. -/
theorem c1_done_iff_witness : tpDone demoEnv c1Row = " @done(03/01/2024 7:00:00 AM)" := by
  have h := c1_done_iff demoEnv c1Row "2" 2 (by decide) (by decide)
    (fun d z => by show ("03/01/2024 7:00:00 AM" : String) ≠ ""; decide)
  exact h.2.1 "03/01/2024 7:00:00 AM" (by decide) (by decide)

/-- A record with numeric priority 0 (the raw string "0") and empty tags. -/
def c2Row : Row := [("tags", ""), ("priority", "0")]

/-- Claim C2 counterexample: a record whose priority is 0 (the string "0")
and whose tags are empty still gets a tags fragment, with the text
`priority-0` appended — the code guards the priority text with the raw
string's truthiness, and the non-empty string "0" is truthy. -/
theorem c2_tags_counterexample :
    rowGet c2Row "priority" = JSVal.str "0" ∧ jsToNumber "0" = some 0 ∧
      rowGet c2Row "tags" = JSVal.str "" ∧ tpTags c2Row = " @tags(priority-0)" ∧
      tpTags c2Row ≠ "" := by decide

/-- Claim C2 as amended: the priority text is appended whenever the raw
priority string is non-empty (including "0"), and the whole fragment is
emitted exactly when the trimmed tags string or the raw priority string is
non-empty. -/
theorem c2_tags_amended (row : Row) (ts p : String)
    (ht : rowGet row "tags" = JSVal.str ts) (hp : rowGet row "priority" = JSVal.str p) :
    (tpTags row = "" ↔ jsTrim ts = "" ∧ p = "")
    ∧ (jsTrim ts = "" → p ≠ "" → tpTags row = " @tags(priority-" ++ p ++ ")")
    ∧ (jsTrim ts ≠ "" → p = "" → tpTags row = " @tags(" ++ jsTrim ts ++ ")")
    ∧ (jsTrim ts ≠ "" → p ≠ "" →
        tpTags row = " @tags(" ++ jsTrim ts ++ ", priority-" ++ p ++ ")") := by
  have htags : jsToString (cleanupStrings (rowGet row "tags")) = jsTrim ts := by
    rw [ht]
    unfold cleanupStrings
    by_cases h : jsTrim (jsToString (JSVal.str ts)) = ""
    · rw [if_pos h]
      exact h.symm
    · rw [if_neg h]
      rfl
  have htt : tpTags row =
      if jsToString (cleanupStrings (rowGet row "tags")) != "" ||
          (if jsTruthy (rowGet row "priority") then
            "priority-" ++ jsToString (rowGet row "priority") else "") != "" then
        " @tags(" ++ jsToString (cleanupStrings (rowGet row "tags")) ++
          (if jsToString (cleanupStrings (rowGet row "tags")) != "" &&
              (if jsTruthy (rowGet row "priority") then
                "priority-" ++ jsToString (rowGet row "priority") else "") != "" then ", "
            else "") ++
          (if jsTruthy (rowGet row "priority") then
            "priority-" ++ jsToString (rowGet row "priority") else "") ++ ")"
      else "" := rfl
  rw [htags, hp] at htt
  rw [show jsTruthy (JSVal.str p) = (p != "") from rfl,
    show jsToString (JSVal.str p) = p from rfl] at htt
  have hEmpF : (("" : String) != "") = false := rfl
  by_cases h1 : jsTrim ts = "" <;> by_cases h2 : p = ""
  · subst h2
    rw [h1] at htt
    simp [hEmpF] at htt
    exact ⟨by simp [htt, h1], fun _ hne => absurd rfl hne, fun hne => absurd h1 hne,
      fun hne => absurd h1 hne⟩
  · have hpt : (p != "") = true := by simpa using h2
    have hpr : (("priority-" ++ p) != "") = true := by
      simpa using append_left_ne_empty "priority-" p (by decide)
    rw [h1] at htt
    simp [hEmpF, hpt, hpr] at htt
    have heq : tpTags row = " @tags(priority-" ++ p ++ ")" := by
      refine Eq.trans htt ?_
      apply str_ext
      simp [String.data_append]
    refine ⟨?_, fun _ _ => heq, fun hc => absurd h1 hc, fun hc => absurd h1 hc⟩
    rw [heq]
    constructor
    · intro h
      exact absurd h (append_left_ne_empty _ _ (append_left_ne_empty _ _ (by decide)))
    · intro hc
      exact absurd hc.2 h2
  · subst h2
    have hst : (jsTrim ts != "") = true := by simpa using h1
    simp [hEmpF, hst] at htt
    have heq : tpTags row = " @tags(" ++ jsTrim ts ++ ")" := by
      refine Eq.trans htt ?_
      apply str_ext
      simp [String.data_append]
    refine ⟨?_, fun hc => absurd hc h1, fun _ _ => heq, fun _ hc => absurd rfl hc⟩
    rw [heq]
    constructor
    · intro h
      exact absurd h (append_left_ne_empty _ _ (append_left_ne_empty _ _ (by decide)))
    · intro hc
      exact absurd hc.1 h1
  · have hst : (jsTrim ts != "") = true := by simpa using h1
    have hpt : (p != "") = true := by simpa using h2
    have hpr : (("priority-" ++ p) != "") = true := by
      simpa using append_left_ne_empty "priority-" p (by decide)
    simp [hst, hpt, hpr] at htt
    have heq : tpTags row = " @tags(" ++ jsTrim ts ++ ", priority-" ++ p ++ ")" := by
      refine Eq.trans htt ?_
      apply str_ext
      simp [String.data_append]
    refine ⟨?_, fun hc => absurd hc h1, fun _ hc => absurd hc h2, fun _ _ => heq⟩
    rw [heq]
    constructor
    · intro h
      exact absurd h (append_left_ne_empty _ _ (append_left_ne_empty _ _
        (append_left_ne_empty _ _ (append_left_ne_empty _ _ (by decide)))))
    · intro hc
      exact absurd hc.1 h1

/-- Witness for the amended C2 at a concrete record with both parts. -/
theorem c2_tags_amended_witness :
    tpTags [("tags", " a "), ("priority", "1")] = " @tags(a, priority-1)" := by
  have h := c2_tags_amended [("tags", " a "), ("priority", "1")] " a " "1"
    (by decide) (by decide)
  rw [h.2.2.2 (by decide) (by decide)]
  decide

/-- Claim C3 (code bug): with a valid instant and the empty string as zone —
which is neither a `normalizeZone` keyword, nor a UTC-offset specifier, nor
a recognised IANA name — `reformatDates` does not fall back to the system
zone as the source comment promises: luxon's `setZone` yields an invalid
`DateTime` and `toFormat` returns the literal text "Invalid DateTime",
which the date encoders then embed verbatim. -/
theorem c3_invalid_zone (env : DateEnv)
    (hiso : env.validISO "2024-03-14T21:05:00.000+0000" = true)
    (hzone : env.validZone "" = false) :
    reformatDates env (JSVal.str "2024-03-14T21:05:00.000+0000") (JSVal.str "") =
      some "Invalid DateTime" := by
  simp only [reformatDates]
  rw [show (("2024-03-14T21:05:00.000+0000" : String) == "") = false from by decide, hiso]
  simp only [Bool.not_true, Bool.or_false, if_false]
  simp only [setZoneFormat]
  rw [show lowerStr "" = "" from rfl]
  rw [show (("" : String) == "default" || ("" : String) == "local" ||
      ("" : String) == "system") = false from by decide]
  rw [show (("" : String) == "utc" || ("" : String) == "gmt") = false from by decide]
  rw [show isUtcOffsetSpec "" = false from rfl, hzone]
  simp

/-- Witness for C3 in the concrete environment. -/
theorem c3_invalid_zone_witness :
    reformatDates demoEnv (JSVal.str "2024-03-14T21:05:00.000+0000") (JSVal.str "") =
      some "Invalid DateTime" :=
  c3_invalid_zone demoEnv (by decide) (by decide)

/-- Claim C10: when the data set left after header removal is empty — in
particular for an empty row sequence — the pipeline still reaches the sink
with the empty string rather than failing. -/
theorem c10_empty_output (env : DateEnv) (json : List Row) (h : dataRows json = []) :
    (parseJson env json).2 = some "" := by
  show (foldProjects env [] (jsSortRows (dataRows json))).map renderResults = some ""
  rw [h]
  rw [show jsSortRows [] = [] from by unfold jsSortRows; simp]
  show some (renderResults []) = some ""
  rw [show renderResults [] = "" from by
    unfold renderResults objectEntriesOrdered
    simp only [List.filter_nil, List.mergeSort_nil, List.append_nil, List.nil_append,
      List.map_nil]
    rfl]

/-- Witness for C10 at the empty row sequence. -/
theorem c10_empty_output_witness : (parseJson demoEnv []).2 = some "" :=
  c10_empty_output demoEnv [] rfl

/-- Claim C4: the header is the first row in which every field's key equals
the camel-case transform of that field's own value; when it sits at index
i, exactly the rows up to and including i are discarded and no format error
is reported; when no such row exists, the format error is reported and the
whole unfiltered row set is carried on (splice(0) of the -1 case). -/
theorem c4_header_detection (json : List Row) :
    (∀ i, findHeaderIdx json = some i →
      isHeaderRow (json.getD i []) = true ∧
        (∀ j, j < i → isHeaderRow (json.getD j []) = false) ∧
        dataRows json = json.drop (i + 1) ∧ formatErrorReported json = false)
    ∧ (findHeaderIdx json = none →
      (∀ row ∈ json, isHeaderRow row = false) ∧
        dataRows json = json ∧ formatErrorReported json = true) := by
  constructor
  · intro i h
    obtain ⟨h1, h2⟩ := findHeaderIdx_some json i h
    refine ⟨h1, h2, ?_, ?_⟩
    · unfold dataRows
      rw [h]
    · unfold formatErrorReported
      rw [h]
      rfl
  · intro h
    refine ⟨findHeaderIdx_none_mem json h, ?_, ?_⟩
    · unfold dataRows
      rw [h]
    · unfold formatErrorReported
      rw [h]
      rfl

/-- The literal header row as TickTick emits it, for the first two fields. -/
def c4HeaderRow : Row := [("folderName", "Folder Name"), ("listName", "List Name")]

/-- A three-row input whose header sits at index 1. -/
def c4Rows : List Row := [[("folderName", "junk")], c4HeaderRow, [("folderName", "Work")]]

/-- Witness for C4: at the concrete input the rows up to and including the
header at index 1 are discarded and no format error is reported. -/
theorem c4_header_detection_witness :
    dataRows c4Rows = [[("folderName", "Work")]] ∧ formatErrorReported c4Rows = false := by
  have h := (c4_header_detection c4Rows).1 1 (by decide)
  refine ⟨?_, h.2.2.2⟩
  rw [h.2.2.1]
  decide

/-- A row whose folder name carries a trailing space. -/
def c5RowA : Row := [("folderName", "a "), ("listName", "c"), ("createdTime", "")]

/-- A row whose folder name contains the other row's separator space. -/
def c5RowB : Row := [("folderName", "a b"), ("listName", ""), ("createdTime", "")]

/-- Claim C5 counterexample: the comparator trims only the ends of the raw
interpolation, so its key keeps interior whitespace ("a  c") that the
encoder's project rule ("a c") does not; at this input the sorted order
[A, B] is strictly descending in the encoder's project key. -/
theorem c5_sort_counterexample :
    jsSortRows [c5RowB, c5RowA] = [c5RowA, c5RowB] ∧
      tpProject c5RowA = "a c" ∧ tpProject c5RowB = "a b" ∧
      jsLtStr (tpProject c5RowB) (tpProject c5RowA) = true ∧
      comparatorKey c5RowA = "a  c" ∧ comparatorKey c5RowB = "a b" := by
  refine ⟨?_, by decide, by decide, by decide, by decide, by decide⟩
  unfold jsSortRows
  rw [mergeSort_pair]
  decide

/-- Claim C5 as amended: the sort is a stable sort on the comparator whose
primary key is the end-trimmed raw interpolation of folderName and listName
(interior whitespace preserved — in general a different string than the
encoder's project rule) and whose secondary key is createdTime; the output
is a permutation of the input, it is sorted under the comparator's
non-positive relation — primary key ascending, then createdTime ascending,
in code-unit lexicographic order — and rows with identical comparator key
and identical createdTime keep their input order. -/
theorem c5_sort_amended (rows : List Row)
    (hstr : ∀ r ∈ rows, isStrVal (rowGet r "createdTime") = true) :
    List.Perm (jsSortRows rows) rows
    ∧ (jsSortRows rows).Pairwise (fun a b => sortLe a b = true)
    ∧ (∀ a b : Row, isStrVal (rowGet a "createdTime") = true →
        isStrVal (rowGet b "createdTime") = true →
        (sortLe a b = true ↔ (jsLtStr (comparatorKey a) (comparatorKey b) = true ∨
          (jsLtStr (comparatorKey a) (comparatorKey b) = false ∧
            jsLtStr (comparatorKey b) (comparatorKey a) = false ∧
            jsLtVal (rowGet b "createdTime") (rowGet a "createdTime") = false))))
    ∧ (∀ a b, comparatorKey a = comparatorKey b →
        rowGet a "createdTime" = rowGet b "createdTime" →
        List.Sublist [a, b] rows → List.Sublist [a, b] (jsSortRows rows)) := by
  have hsort := jsSortRows_eq_total rows hstr
  refine ⟨List.mergeSort_perm rows sortLe, ?_, ?_, ?_⟩
  · rw [hsort]
    have hp := @List.sorted_mergeSort Row totalLe totalLe_trans totalLe_total rows
    exact List.Pairwise.imp_of_mem
      (fun ha hb hab => by
        rw [sortLe_eq_totalLe _ _ (hstr _ (List.mem_mergeSort.mp ha))
          (hstr _ (List.mem_mergeSort.mp hb))]
        exact hab) hp
  · intro a b ha hb
    obtain ⟨sa, hsa⟩ : ∃ s, rowGet a "createdTime" = JSVal.str s := by
      cases h : rowGet a "createdTime" with
      | str s => exact ⟨s, rfl⟩
      | undef => rw [h] at ha; simp [isStrVal] at ha
      | null => rw [h] at ha; simp [isStrVal] at ha
    obtain ⟨sb, hsb⟩ : ∃ s, rowGet b "createdTime" = JSVal.str s := by
      cases h : rowGet b "createdTime" with
      | str s => exact ⟨s, rfl⟩
      | undef => rw [h] at hb; simp [isStrVal] at hb
      | null => rw [h] at hb; simp [isStrVal] at hb
    unfold sortLe sortByProjectAndCreation
    rw [hsa, hsb]
    rw [show jsLtVal (JSVal.str sa) (JSVal.str sb) = jsLtStr sa sb from rfl]
    rw [show jsLtVal (JSVal.str sb) (JSVal.str sa) = jsLtStr sb sa from rfl]
    rcases Bool.eq_false_or_eq_true (jsLtStr (comparatorKey a) (comparatorKey b)) with h1 | h1 <;>
      rcases Bool.eq_false_or_eq_true (jsLtStr (comparatorKey b) (comparatorKey a)) with h2 | h2 <;>
        rcases Bool.eq_false_or_eq_true (jsLtStr sa sb) with h3 | h3 <;>
          rcases Bool.eq_false_or_eq_true (jsLtStr sb sa) with h4 | h4
    all_goals first
      | (exact Bool.noConfusion ((lexLt_asymm _ _ h3).symm.trans h4))
      | simp [h1, h2, h3, h4]
  · intro a b hkey hcr hsub
    rw [hsort]
    apply List.pair_sublist_mergeSort totalLe_trans totalLe_total ?_ hsub
    unfold totalLe keyUnits createdUnits
    rw [hkey, hcr, lexLt_irrefl, lexLt_irrefl]
    rfl

/-- Two rows with identical comparator key and identical createdTime. -/
def c5WRow1 : Row := [("folderName", "w"), ("createdTime", "2024"), ("title", "x")]

/-- A second such row, distinguishable only by its title. -/
def c5WRow2 : Row := [("folderName", "w"), ("createdTime", "2024"), ("title", "y")]

/-- Witness for the amended C5: two tied rows keep their input order. -/
theorem c5_sort_amended_witness :
    List.Sublist [c5WRow1, c5WRow2] (jsSortRows [c5WRow1, c5WRow2]) := by
  have h := c5_sort_amended [c5WRow1, c5WRow2] (by decide)
  exact h.2.2.2 c5WRow1 c5WRow2 (by decide) (by decide) (List.Sublist.refl _)

/-- A full row in the fixed 21-column schema. -/
def mkFullRow (f t : String) : Row :=
  [("folderName", f), ("listName", ""), ("title", t), ("tags", ""), ("content", ""),
   ("isCheckList", "0"), ("startDate", ""), ("dueDate", ""), ("reminder", ""), ("repeat", ""),
   ("priority", ""), ("status", ""), ("createdTime", ""), ("completedTime", ""), ("order", "0"),
   ("timezone", ""), ("isAllDay", "0"), ("isFloating", "0"), ("columnName", ""),
   ("columnOrder", "0"), ("viewMode", "")]

/-- A row in project "!x", which sorts before "42". -/
def c6RowBang : Row := mkFullRow "!x" "t1"

/-- A row in project "42", a canonical array-index key. -/
def c6Row42 : Row := mkFullRow "42" "t2"

/-- The accumulator the pass builds for those two rows, in encounter order. -/
def c6Acc : List (String × List String) :=
  [("!x", ["\n!x:", "\t- t1"]), ("42", ["\n42:", "\t- t2"])]

/-- Claim C6 counterexample: on the pre-sorted pair of rows the pass meets
"!x" first and "42" second, but "42" is a canonical array-index property
key, so the object enumerates its bucket first and the rendering emits the
buckets in the order 42, !x — not in first-encounter order. -/
theorem c6_bucket_order_counterexample :
    sortLe c6RowBang c6Row42 = true ∧
      foldProjects demoEnv [] [c6RowBang, c6Row42] = some c6Acc ∧
      c6Acc.map (fun kv => kv.1) = ["!x", "42"] ∧
      renderedKeys c6Acc = ["42", "!x"] := by
  refine ⟨by decide, by decide, by decide, ?_⟩
  unfold renderedKeys objectEntriesOrdered
  rw [show c6Acc.filter (fun kv => isArrayIndexKey kv.1) = [("42", ["\n42:", "\t- t2"])]
    from by decide]
  rw [List.mergeSort_singleton]
  rw [show c6Acc.filter (fun kv => !isArrayIndexKey kv.1) = [("!x", ["\n!x:", "\t- t1"])]
    from by decide]
  decide

/-- Claim C6 as amended: the rendering enumerates buckets whose keys are
canonical array-index strings first (ascending numerically) and the rest in
first-encounter order; when no bucket key is such a string — the common
case — the rendered order is exactly the first-encounter order of the
project keys along the single left-to-right pass. -/
theorem c6_bucket_order_amended (env : DateEnv) (rows : List Row)
    (acc : List (String × List String))
    (hfold : foldProjects env [] rows = some acc)
    (hidx : ∀ kv ∈ acc, isArrayIndexKey kv.1 = false) :
    renderedKeys acc = acc.map (fun kv => kv.1)
    ∧ acc.map (fun kv => kv.1) = dedupFirst (rows.map fun task => jsTrim (tpProject task)) := by
  constructor
  · unfold renderedKeys
    rw [objectEntriesOrdered_of_no_idx acc hidx]
  · rw [foldProjects_keys env rows [] acc hfold]
    unfold dedupFirst
    rw [List.foldl_map]
    rfl

/-- Witness for the amended C6 at two ordinary project keys. -/
theorem c6_bucket_order_amended_witness :
    renderedKeys [("a", ["\na:", "\t- t1"]), ("b", ["\nb:", "\t- t2"])] =
        [("a", ["\na:", "\t- t1"]), ("b", ["\nb:", "\t- t2"])].map
          (fun kv => kv.1) ∧
      [("a", ["\na:", "\t- t1"]), ("b", ["\nb:", "\t- t2"])].map (fun kv => kv.1) =
        dedupFirst ([mkFullRow "a" "t1", mkFullRow "b" "t2"].map
          fun task => jsTrim (tpProject task)) :=
  c6_bucket_order_amended demoEnv [mkFullRow "a" "t1", mkFullRow "b" "t2"]
    [("a", ["\na:", "\t- t1"]), ("b", ["\nb:", "\t- t2"])] (by decide) (by decide)

/-- Two plain rows in the projects "a" and "b". -/
def c7RowA : Row := mkFullRow "a" "t1"

/-- The second row, in project "b". -/
def c7RowB : Row := mkFullRow "b" "t2"

/-- The accumulator the pass builds for those two rows. -/
def c7Acc : List (String × List String) :=
  [("a", ["\na:", "\t- t1"]), ("b", ["\nb:", "\t- t2"])]

/-- Claim C7 counterexample: in the rendered text two blank lines — not
one — separate consecutive buckets, because each bucket header string
carries a leading newline and the buckets are then joined with another
blank line; the output also begins with a blank line. -/
theorem c7_blank_lines_counterexample :
    (parseJson demoEnv [c7RowA, c7RowB]).2 = some "\na:\n\n\t- t1\n\n\nb:\n\n\t- t2" ∧
      splitNl "\na:\n\n\t- t1\n\n\nb:\n\n\t- t2" =
        ["", "a:", "", "\t- t1", "", "", "b:", "", "\t- t2"] := by
  constructor
  · have h1 : dataRows [c7RowA, c7RowB] = [c7RowA, c7RowB] := by decide
    have h2 : jsSortRows [c7RowA, c7RowB] = [c7RowA, c7RowB] := by
      unfold jsSortRows
      rw [mergeSort_pair]
      decide
    have h3 : foldProjects demoEnv [] [c7RowA, c7RowB] = some c7Acc := by decide
    have h4 : renderResults c7Acc = "\na:\n\n\t- t1\n\n\nb:\n\n\t- t2" := by
      unfold renderResults
      rw [objectEntriesOrdered_of_no_idx c7Acc (by decide)]
      decide
    show (foldProjects demoEnv [] (jsSortRows (dataRows [c7RowA, c7RowB]))).map renderResults = _
    rw [h1, h2, h3]
    show some (renderResults c7Acc) = _
    rw [h4]
  · decide

/-- Claim C7 as amended: within a bucket the join inserts exactly one blank
line between the header line and the first entry and between consecutive
entries — every entry is non-empty, begins with a tab-indented non-blank
line and ends with a non-blank line, because the block is trimmed before
the tab indent; but every bucket string itself begins with a blank line
(the header's leading newline), so the bucket joiner's blank line plus that
leading blank line put two blank lines between consecutive buckets, and the
whole output starts with a blank line. -/
theorem c7_blank_lines_amended (env : DateEnv) (rows : List Row)
    (acc : List (String × List String)) (hfold : foldProjects env [] rows = some acc) :
    (∀ kv ∈ acc, ∃ entries, kv.2 = ("\n" ++ kv.1 ++ ":") :: entries
      ∧ (∀ e ∈ entries, e ≠ "" ∧ lineBlank ((splitNl e).headD "") = false ∧
          lineBlank ((splitNl e).getLastD "") = false)
      ∧ splitNl (joinNN kv.2) =
          "" :: splitNl (kv.1 ++ ":") ++ entries.flatMap (fun e => "" :: splitNl e)
      ∧ (splitNl (joinNN kv.2)).headD "x" = ""
      ∧ lineBlank ((splitNl (joinNN kv.2)).getLastD "") = false)
    ∧ (acc ≠ [] → ∃ b bs,
        (objectEntriesOrdered acc).map (fun kv => joinNN kv.2) = b :: bs ∧
        splitNl (renderResults acc) = splitNl b ++ bs.flatMap (fun s => "" :: splitNl s))
    ∧ (∀ kv ∈ objectEntriesOrdered acc, kv ∈ acc) := by
  have hok : BucketsOk acc :=
    foldProjects_ok env rows [] acc (fun kv h => absurd h (by simp)) hfold
  refine ⟨?_, ?_, mem_objectEntriesOrdered acc⟩
  · intro kv hkv
    obtain ⟨entries, hent, hgood⟩ := hok kv hkv
    refine ⟨entries, hent, fun e he => hgood e he, ?_, ?_, ?_⟩
    · rw [hent]
      exact bucket_splitNl kv.1 entries
    · rw [hent, bucket_splitNl]
      rfl
    · rw [hent]
      exact bucket_last_not_blank kv.1 entries hgood
  · intro hne
    obtain ⟨kv0, rest, hor⟩ : ∃ kv0 rest, objectEntriesOrdered acc = kv0 :: rest := by
      cases h : objectEntriesOrdered acc with
      | nil => exact absurd h (objectEntriesOrdered_ne_nil acc hne)
      | cons kv0 rest => exact ⟨kv0, rest, rfl⟩
    refine ⟨joinNN kv0.2, rest.map (fun kv => joinNN kv.2), ?_, ?_⟩
    · rw [hor]
      rfl
    · unfold renderResults
      rw [hor, List.map_cons, splitNl_joinNN_cons]

/-- Witness for the amended C7 at the two-bucket accumulator. -/
theorem c7_blank_lines_amended_witness :
    ∃ b bs, (objectEntriesOrdered c7Acc).map (fun kv => joinNN kv.2) = b :: bs ∧
      splitNl (renderResults c7Acc) = splitNl b ++ bs.flatMap (fun s => "" :: splitNl s) :=
  (c7_blank_lines_amended demoEnv [c7RowA, c7RowB] c7Acc (by decide)).2.1 (by decide)

/-- A row with an empty priority string and no tags key at all. -/
def c8Row : Row := [("priority", "")]

/-- Claim C8 counterexample: a missing key reads as `undefined`, which
`String(value)` coerces to the eight-character text "undefined" — not to
the empty string — so a record without a tags key renders a spurious
`@tags(undefined)` fragment. -/
theorem c8_missing_key_counterexample :
    c8Row.lookup "tags" = none ∧ rowGet c8Row "tags" = JSVal.undef ∧
      cleanupStrings JSVal.undef = JSVal.str "undefined" ∧
      tpTags c8Row = " @tags(undefined)" ∧ tpTags c8Row ≠ "" := by decide

/-- Claim C8 as amended: for present string fields the normalisation trims
and falls back exactly as described and never fails; but a missing key is
coerced to the non-empty text "undefined", which does contribute visible
output — a record without a tags key and with falsy priority renders the
fragment `@tags(undefined)`. -/
theorem c8_cleanup_amended :
    (∀ (s : String) (fb : JSVal), jsTrim s ≠ "" →
        cleanupStrings (JSVal.str s) fb = JSVal.str (jsTrim s))
    ∧ (∀ (s : String) (fb : JSVal), jsTrim s = "" → cleanupStrings (JSVal.str s) fb = fb)
    ∧ (∀ row : Row, row.lookup "tags" = none → jsTruthy (rowGet row "priority") = false →
        tpTags row = " @tags(undefined)") := by
  refine ⟨?_, ?_, ?_⟩
  · intro s fb h
    show (if jsTrim s = "" then fb else JSVal.str (jsTrim s)) = JSVal.str (jsTrim s)
    rw [if_neg h]
  · intro s fb h
    show (if jsTrim s = "" then fb else JSVal.str (jsTrim s)) = fb
    rw [if_pos h]
  · intro row h hp
    have hta : rowGet row "tags" = JSVal.undef := by
      unfold rowGet
      rw [h]
    have htt : tpTags row =
        if jsToString (cleanupStrings (rowGet row "tags")) != "" ||
            (if jsTruthy (rowGet row "priority") then
              "priority-" ++ jsToString (rowGet row "priority") else "") != "" then
          " @tags(" ++ jsToString (cleanupStrings (rowGet row "tags")) ++
            (if jsToString (cleanupStrings (rowGet row "tags")) != "" &&
                (if jsTruthy (rowGet row "priority") then
                  "priority-" ++ jsToString (rowGet row "priority") else "") != "" then ", "
              else "") ++
            (if jsTruthy (rowGet row "priority") then
              "priority-" ++ jsToString (rowGet row "priority") else "") ++ ")"
        else "" := rfl
    rw [hta, hp] at htt
    rw [show jsToString (cleanupStrings JSVal.undef) = "undefined" from by decide] at htt
    simp at htt
    refine Eq.trans htt ?_
    apply str_ext
    simp [String.data_append]

/-- Witness for the amended C8 at the concrete tag-less record. -/
theorem c8_cleanup_amended_witness : tpTags c8Row = " @tags(undefined)" :=
  (c8_cleanup_amended).2.2 c8Row (by decide) (by decide)

/-- The record of the claim's own example note. -/
def c9Row : Row := [("content", "- call landlord")]

/-- Claim C9 counterexample: the dash replacement removes only the dash,
not the following space, so the claim's example line renders as
" call landlord" with a leading space — not as "call landlord". -/
theorem c9_note_counterexample :
    tpNote c9Row = " call landlord" ∧ tpNote c9Row ≠ "call landlord" := by decide

/-- Claim C9 as amended: the encoder splits the trimmed note into lines and
rewrites each line by removing one leading dash if present and then one
leading black-square bullet if present — so a line starting with the two
characters dash-then-bullet loses both, a line with neither leading marker
is unchanged, and nothing else (in particular no whitespace after the
marker) is removed; an empty or falsy note yields the empty string. -/
theorem c9_note_amended :
    (∀ (row : Row) (s : String), rowGet row "content" = JSVal.str s → s ≠ "" →
        tpNote row = joinNl ((splitNl (jsToString (cleanupStrings (JSVal.str s)))).map
          cleanNoteLine))
    ∧ (∀ l : List Char, cleanNoteLine ⟨'-' :: '▪' :: l⟩ = ⟨l⟩)
    ∧ (∀ l : List Char, cleanNoteLine ⟨'-' :: l⟩ = ⟨stripSquare l⟩)
    ∧ (∀ l : List Char, cleanNoteLine ⟨'▪' :: l⟩ = ⟨l⟩)
    ∧ (∀ l : List Char, l.headD ' ' ≠ '-' → l.headD ' ' ≠ '▪' → cleanNoteLine ⟨l⟩ = ⟨l⟩)
    ∧ (∀ row : Row, jsTruthy (rowGet row "content") = false → tpNote row = "") := by
  refine ⟨?_, ?_, ?_, ?_, ?_, ?_⟩
  · intro row s hc hs
    unfold tpNote
    rw [hc]
    rw [show jsTruthy (JSVal.str s) = (s != "") from rfl,
      show (s != "") = true from by simpa using hs]
    simp
  · intro l
    rfl
  · intro l
    rfl
  · intro l
    unfold cleanNoteLine stripDash stripSquare
    simp
  · intro l h1 h2
    cases l with
    | nil => rfl
    | cons c cs =>
      unfold cleanNoteLine stripDash stripSquare
      simp only [List.headD_cons] at h1 h2
      simp [h1, h2]
  · intro row h
    unfold tpNote
    rw [h]
    simp

/-- Witness for the amended C9 at a two-line note. -/
theorem c9_note_amended_witness :
    tpNote [("content", "x\n-y")] = joinNl ((splitNl (jsToString (cleanupStrings
        (JSVal.str "x\n-y")))).map cleanNoteLine) ∧
      tpNote [("content", "x\n-y")] = "x\ny" := by
  refine ⟨(c9_note_amended).1 [("content", "x\n-y")] "x\n-y" (by decide) (by decide), by decide⟩

end TickTickToOmniFocus
